import Mathlib

/-!
Shallow embedding of the runtime core of the rapidus interpreter
(`src/vm.rs`, `src/fv_finder.rs`).

Modelling conventions:
* IEEE-754 doubles are modelled as rationals (`ℚ`); every claim under
  scrutiny evaluates numbers only at integer values, where the two agree.
* `Rc<RefCell<HashMap<String, Value>>>` cells are modelled as addresses
  (`Nat`) into an explicit store (`objHeap`); `Rc<RefCell<ArrayValue>>`
  likewise into `arrHeap`.  `HashMap` is an association list with
  insert-or-replace semantics (iteration order is unspecified in the spec).
* Rust `Vec` stacks (`stack`, `scope`, `history`, `varmap`, …) are Lean
  lists.  The value stack, scope stack and history are held head-is-top;
  the analyzer's `varmap`/`mangled_function_name` vectors are held
  head-is-index-0 (so `varmap[0]` is the head), matching source indexing.
* Panics / unreachable!() / index-out-of-bounds / unsafe UB are modelled
  as `Option.none` — the program aborts there.
* `println!` diagnostics are modelled as `Diagnostic` records appended to
  an `output` trace.
-/

namespace Rapidus

/-- Alias for the core string type, usable inside namespaces where a
constructor named `String` shadows it. -/
abbrev CoreString := String

/-- `CallObject` of `vm.rs` (an activation record).  `vals` is the address
of the shared bindings map; `this` is the address of the receiver's map;
`parent` is the captured lexical parent cell (copied by value: all source
mutations after capture go through the shared `vals` maps, which addresses
preserve). -/
inductive CallObject : Type where
  | mk (vals : Nat) (param_names : List String) (this : Option Nat)
       (parent : Option CallObject)

def CallObject.vals : CallObject → Nat
  | .mk v _ _ _ => v

def CallObject.param_names : CallObject → List String
  | .mk _ p _ _ => p

def CallObject.this : CallObject → Option Nat
  | .mk _ _ t _ => t

def CallObject.parent : CallObject → Option CallObject
  | .mk _ _ _ p => p

def CallObject.setVals : CallObject → Nat → CallObject
  | .mk _ p t par, v => .mk v p t par

def CallObject.setThis : CallObject → Option Nat → CallObject
  | .mk v p _ par, t => .mk v p t par

def CallObject.setParent : CallObject → Option CallObject → CallObject
  | .mk v p t _, par => .mk v p t par

/-- The `Value` enum of `vm.rs`. -/
inductive Value : Type where
  | Undefined
  | Bool (b : Bool)
  | Number (n : ℚ)
  | String (s : String)
  | Function (entry : Nat) (obj : Nat) (callobj : CallObject)
  | NeedThis (v : Value)
  | WithThis (f this : Value)
  | BuiltinFunction (idx : Nat)
  | Object (addr : Nat)
  | Array (addr : Nat)
  | Arguments

/-- A shared property map (`HashMap<String, Value>`), as an association
list with insert-or-replace semantics. -/
abbrev ObjMap := List (String × Value)

/-- `ArrayValue` of `vm.rs`. -/
structure ArrayValue where
  elems : List Value
  length : Nat
  obj : ObjMap

/-- One `println!` diagnostic line: the failing operation, the offending
value, and the program counter it reports. -/
structure Diagnostic where
  op : String
  val : Value
  pc : Int

/-- `VMState` of `vm.rs` plus the stores backing the `Rc<RefCell<..>>`
cells, the constant table, the bytecode and the emitted diagnostics. -/
structure VMState where
  stack : List Value := []
  scope : List CallObject := []
  bp : Nat := 0
  lp : Nat := 0
  pc : Int := 0
  history : List (Nat × Nat × Nat × Int) := []
  objHeap : List ObjMap := []
  arrHeap : List ArrayValue := []
  constValues : List Value := []
  constStrings : List String := []
  insts : List Nat := []
  loopBgnEnd : List (Int × Int) := []
  output : List Diagnostic := []

/-! ### Association-list and store helpers -/

/-- `HashMap::get`. -/
def mlookup {β : Type} : List (String × β) → String → Option β
  | [], _ => none
  | (k', v) :: rest, k => if k' = k then some v else mlookup rest k

/-- `HashMap::insert` / `entry(..).or_insert(..) = v` (insert-or-replace). -/
def minsert {β : Type} : List (String × β) → String → β → List (String × β)
  | [], k, v => [(k, v)]
  | (k', v') :: rest, k, v =>
    if k' = k then (k, v) :: rest else (k', v') :: minsert rest k v

/-- Read a store cell; `none` only at a dangling address (never created by
the source, which goes through always-valid `Rc`s). -/
def hget {α : Type} (h : List α) (a : Nat) : Option α := h[a]?

/-- Write a store cell. -/
def hset {α : Type} (h : List α) (a : Nat) (x : α) : Option (List α) :=
  if a < h.length then some (h.set a x) else none

/-- Pop `n` values (`stack.pop().unwrap()` n times): returns them in pop
order (head = former stack top) with the remaining stack; `none` models
the unwrap panic on underflow. -/
def popN (stack : List Value) (n : Nat) : Option (List Value × List Value) :=
  if n ≤ stack.length then some (stack.take n, stack.drop n) else none

/-- Read the bottom-indexed slot `stack[i]` of a Vec whose Lean
representation is head-is-top. -/
def vecGetBottom (l : List Value) (i : Nat) : Option Value :=
  if i < l.length then l[l.length - 1 - i]? else none

/-- Write the bottom-indexed slot `stack[i] = v`. -/
def vecSetBottom (l : List Value) (i : Nat) (v : Value) : Option (List Value) :=
  if i < l.length then some (l.set (l.length - 1 - i) v) else none

/-! ### Numeric helpers (doubles as rationals) -/

/-- The test `n - n.floor() == 0.0` used for integer-index keys (for
rationals, `q - ⌊q⌋ == 0` is exactly `q == ⌊q⌋`, which is the form that
kernel-evaluates). -/
def ratIsInt (q : ℚ) : Bool := q == (Rat.floor q : ℚ)

/-- Rust `f64 as usize` (truncating, saturating at the ends). -/
def ratToUsize (q : ℚ) : Nat := min (2 ^ 64 - 1) (Rat.floor q).toNat

/-- Rust `f64 as i64` (truncation toward zero, saturating). -/
def ratToI64 (q : ℚ) : Int :=
  let t : Int := if q < 0 then -Rat.floor (-q) else Rat.floor q
  max (-(2 ^ 63)) (min (2 ^ 63 - 1) t)

/-- Two's-complement `i64 & i64`. -/
def landI64 (a b : Int) : Int :=
  let r : Nat := (a % 2 ^ 64).toNat &&& (b % 2 ^ 64).toNat
  if r < 2 ^ 63 then (r : Int) else (r : Int) - 2 ^ 64

/-- Two's-complement `i64 | i64`. -/
def lorI64 (a b : Int) : Int :=
  let r : Nat := (a % 2 ^ 64).toNat ||| (b % 2 ^ 64).toNat
  if r < 2 ^ 63 then (r : Int) else (r : Int) - 2 ^ 64

/-- `format!("{}", n)` for an `f64`; only integer-valued numbers are ever
rendered by the claims under study (decimal rendering of non-integral
doubles is not modelled). -/
def numToString (q : ℚ) : String :=
  if q.den = 1 then toString q.num
  else toString q.num ++ "/" ++ toString q.den

/-- `Value::to_string`; `unimplemented!()` on every other variant. -/
def Value.to_string : Value → Option CoreString
  | .String s => some s
  | .Number n => some (numToString n)
  | _ => none

/-! ### Bytecode decoding -/

/-- `insts[pc as usize]`; a negative `pc` wraps to a huge index and the
access panics. -/
def fetch8 (insts : List Nat) (pc : Int) : Option Nat :=
  if pc < 0 then none else insts[pc.toNat]?

/-- The `get_int32!` macro: four little-endian bytes starting at `pc`. -/
def fetch32 (insts : List Nat) (pc : Int) : Option Nat := do
  let b0 ← fetch8 insts pc
  let b1 ← fetch8 insts (pc + 1)
  let b2 ← fetch8 insts (pc + 2)
  let b3 ← fetch8 insts (pc + 3)
  pure ((b3 <<< 24) + (b2 <<< 16) + (b1 <<< 8) + b0)

/-- Reinterpret a 32-bit operand as a signed `i32`. -/
def int32Of (n : Nat) : Int :=
  if n % 2 ^ 32 < 2 ^ 31 then (n % 2 ^ 32 : Nat) else (n % 2 ^ 32 : Nat) - 2 ^ 32

/-! ### Binary operators -/

/-- `BinOp` of `node.rs`.  Modelled from the spec: `node.rs` is not under
`src/`; §4.4 lists exactly these fifteen binary operators. -/
inductive BinOp : Type where
  | Add | Sub | Mul | Div | Rem | Lt | Gt | Le | Ge | Eq | Ne | SEq | SNe
  | And | Or
deriving DecidableEq

/-- `fn binary` of `vm.rs`: pops `rhs` then `lhs`, pushes a result for the
four handled type pairs; the catch-all `_ => {}` pushes nothing (both
operands stay consumed).  `none` models the `panic!()` arms, a pop on an
empty stack, and `%` by integer zero. -/
def binary (op : BinOp) (vm : VMState) : Option VMState :=
  match vm.stack with
  | rhs :: lhs :: rest =>
    match lhs, rhs with
    | .Number n1, .Number n2 =>
      match op with
      | .Add => some { vm with stack := .Number (n1 + n2) :: rest }
      | .Sub => some { vm with stack := .Number (n1 - n2) :: rest }
      | .Mul => some { vm with stack := .Number (n1 * n2) :: rest }
      | .Div => some { vm with stack := .Number (n1 / n2) :: rest }
      | .Rem =>
        if ratToI64 n2 = 0 then none
        else some { vm with stack := .Number ((ratToI64 n1).tmod (ratToI64 n2) : ℚ) :: rest }
      | .Lt => some { vm with stack := .Bool (decide (n1 < n2)) :: rest }
      | .Gt => some { vm with stack := .Bool (decide (n1 > n2)) :: rest }
      | .Le => some { vm with stack := .Bool (decide (n1 ≤ n2)) :: rest }
      | .Ge => some { vm with stack := .Bool (decide (n1 ≥ n2)) :: rest }
      | .Eq => some { vm with stack := .Bool (n1 == n2) :: rest }
      | .Ne => some { vm with stack := .Bool (n1 != n2) :: rest }
      | .SEq => some { vm with stack := .Bool (n1 == n2) :: rest }
      | .SNe => some { vm with stack := .Bool (n1 != n2) :: rest }
      | .And => some { vm with stack := .Number (landI64 (ratToI64 n1) (ratToI64 n2) : ℚ) :: rest }
      | .Or => some { vm with stack := .Number (lorI64 (ratToI64 n1) (ratToI64 n2) : ℚ) :: rest }
    | .String s1, .Number n2 =>
      match op with
      | .Add => some { vm with stack := .String (s1 ++ numToString n2) :: rest }
      | _ => none
    | .Number n1, .String s2 =>
      match op with
      | .Add => some { vm with stack := .String (numToString n1 ++ s2) :: rest }
      | _ => none
    | .String s1, .String s2 =>
      match op with
      | .Add => some { vm with stack := .String (s1 ++ s2) :: rest }
      | _ => none
    | _, _ => some { vm with stack := rest }
  | _ => none

/-! ### Builtin ids and opcode numbers -/

namespace builtin
def CONSOLE_LOG : Nat := 0
def PROCESS_STDOUT_WRITE : Nat := 1
def ARRAY_PUSH : Nat := 2
def MATH_FLOOR : Nat := 3
def MATH_RANDOM : Nat := 4
def MATH_POW : Nat := 5
def FUNCTION_PROTOTYPE_CALL : Nat := 6
end builtin

/-! Opcode numbers, in the order of the `op_table` array of `VM::new`. -/
namespace VMInst
def END : Nat := 0
def CREATE_CONTEXT : Nat := 1
def CONSTRUCT : Nat := 2
def CREATE_OBJECT : Nat := 3
def CREATE_ARRAY : Nat := 4
def PUSH_INT8 : Nat := 5
def PUSH_INT32 : Nat := 6
def PUSH_FALSE : Nat := 7
def PUSH_TRUE : Nat := 8
def PUSH_CONST : Nat := 9
def PUSH_THIS : Nat := 10
def PUSH_ARGUMENTS : Nat := 11
def NEG : Nat := 12
def ADD : Nat := 13
def SUB : Nat := 14
def MUL : Nat := 15
def DIV : Nat := 16
def REM : Nat := 17
def LT : Nat := 18
def GT : Nat := 19
def LE : Nat := 20
def GE : Nat := 21
def EQ : Nat := 22
def NE : Nat := 23
def SEQ : Nat := 24
def SNE : Nat := 25
def AND : Nat := 26
def OR : Nat := 27
def GET_MEMBER : Nat := 28
def SET_MEMBER : Nat := 29
def GET_GLOBAL : Nat := 30
def SET_GLOBAL : Nat := 31
def GET_LOCAL : Nat := 32
def SET_LOCAL : Nat := 33
def GET_ARG_LOCAL : Nat := 34
def SET_ARG_LOCAL : Nat := 35
def JMP_IF_FALSE : Nat := 36
def JMP : Nat := 37
def CALL : Nat := 38
def RETURN : Nat := 39
def ASSIGN_FUNC_REST_PARAM : Nat := 40
def DOUBLE : Nat := 41
def POP : Nat := 42
def LAND : Nat := 43
def LOR : Nat := 44
def SET_CUR_CALLOBJ : Nat := 45
def GET_NAME : Nat := 46
def SET_NAME : Nat := 47
def DECL_VAR : Nat := 48
end VMInst

/-! ### Property lookup and member access -/

/-- `obj_find_val` of `vm.rs`: look up `key`, else recurse through
`__proto__` when it is an Object.  The source recursion is unbounded; the
`fuel` argument models the host call stack, and `none` models its
exhaustion (stack overflow). -/
def obj_find_val : Nat → List ObjMap → ObjMap → String → Option Value
  | 0, _, _, _ => none
  | fuel + 1, heap, obj, key =>
    match mlookup obj key with
    | some v => some v
    | none =>
      match mlookup obj "__proto__" with
      | some (.Object a) => do
        let m ← hget heap a
        obj_find_val fuel heap m key
      | _ => some .Undefined

/-- `ArrayValue::new`: the fresh array's `__proto__` object (carrying
`push`) is allocated on the object store. -/
def ArrayValue.new (heap : List ObjMap) (arr : List Value) :
    List ObjMap × ArrayValue :=
  (heap ++ [[("push", .NeedThis (.BuiltinFunction builtin.ARRAY_PUSH))]],
   { elems := arr, length := arr.length,
     obj := [("__proto__", .Object heap.length)] })

/-- `Char::len_utf16` of a code point. -/
def charLenUtf16 (c : Char) : Nat := if c.val < 0x10000 then 1 else 2

/-- `fn get_member` of `vm.rs`. -/
def get_member (fuel : Nat) (vm : VMState) : Option VMState :=
  match vm.stack with
  | member :: parent :: rest =>
    let vm := { vm with pc := vm.pc + 1, stack := rest }
    match parent with
    | .String s =>
      match member with
      | .Number n =>
        if ratIsInt n then do
          let c ← s.toList[ratToUsize n]?
          pure { vm with stack := .String c.toString :: rest }
        else some { vm with stack := .Undefined :: rest }
      | .String k =>
        if k = "length" then
          let len : Nat := s.toList.foldl (fun x c => x + charLenUtf16 c) 0
          some { vm with stack := .Number (len : ℚ) :: rest }
        else some { vm with stack := .Undefined :: rest }
      | _ => some { vm with stack := .Undefined :: rest }
    | .Object addr => do
      let m ← hget vm.objHeap addr
      let key ← member.to_string
      let v ← obj_find_val fuel vm.objHeap m key
      match v with
      | .Function pos map2 callobj =>
        let f := Value.Function pos map2 (callobj.setThis (some addr))
        pure { vm with stack := f :: rest }
      | v => pure { vm with stack := v :: rest }
    | .Function _ mapAddr _ | .NeedThis (.Function _ mapAddr _) => do
      let m ← hget vm.objHeap mapAddr
      let key ← member.to_string
      let v ← obj_find_val fuel vm.objHeap m key
      match v with
      | .Function pos map2 callobj =>
        let f := Value.Function pos map2 (callobj.setThis (some mapAddr))
        pure { vm with stack := f :: rest }
      | v => pure { vm with stack := v :: rest }
    | .Array addr => do
      let av ← hget vm.arrHeap addr
      match member with
      | .Number n =>
        if ratIsInt n then
          if ratToUsize n ≥ av.length then
            pure { vm with stack := .Undefined :: rest }
          else do
            let v ← av.elems[ratToUsize n]?
            pure { vm with stack := v :: rest }
        else do
          let key ← member.to_string
          let v ← obj_find_val fuel vm.objHeap av.obj key
          match v with
          | .NeedThis callee =>
            pure { vm with stack := .WithThis callee parent :: rest }
          | v => pure { vm with stack := v :: rest }
      | .String k =>
        if k = "length" then
          pure { vm with stack := .Number (av.length : ℚ) :: rest }
        else do
          let key ← member.to_string
          let v ← obj_find_val fuel vm.objHeap av.obj key
          match v with
          | .NeedThis callee =>
            pure { vm with stack := .WithThis callee parent :: rest }
          | v => pure { vm with stack := v :: rest }
      | _ => do
        let key ← member.to_string
        let v ← obj_find_val fuel vm.objHeap av.obj key
        match v with
        | .NeedThis callee =>
          pure { vm with stack := .WithThis callee parent :: rest }
        | v => pure { vm with stack := v :: rest }
    | .Arguments =>
      match member with
      | .Number n =>
        if ratIsInt n then
          let idx := vm.bp + ratToUsize n
          if idx < vm.lp then do
            let v ← vecGetBottom rest idx
            pure { vm with stack := v :: rest }
          else some { vm with stack := rest }
        else some { vm with stack := .Undefined :: rest }
      | .String k =>
        if k = "length" then
          some { vm with stack := .Number ((vm.lp : ℚ) - (vm.bp : ℚ)) :: rest }
        else some { vm with stack := .Undefined :: rest }
      | _ => some { vm with stack := .Undefined :: rest }
    | _ => none
  | _ => none

/-- `Vec::set_len` (unsafe): truncation is observable; growing past the
current length exposes uninitialised memory, which is undefined behaviour
and modelled as `none`. -/
def setLen (l : List Value) (n : Nat) : Option (List Value) :=
  if n ≤ l.length then some (l.take n) else none

/-- `elems[i] = val` — `IndexMut` panics when `i` is out of bounds. -/
def listWrite (l : List Value) (i : Nat) (v : Value) : Option (List Value) :=
  if i < l.length then some (l.set i v) else none

/-- `fn set_member` of `vm.rs`. -/
def set_member (vm : VMState) : Option VMState :=
  match vm.stack with
  | member :: parent :: val :: rest =>
    let vm := { vm with pc := vm.pc + 1, stack := rest }
    match parent with
    | .Object addr | .Function _ addr _ | .NeedThis (.Function _ addr _) => do
      let m ← hget vm.objHeap addr
      let key ← member.to_string
      let h ← hset vm.objHeap addr (minsert m key val)
      pure { vm with objHeap := h }
    | .Array addr => do
      let av ← hget vm.arrHeap addr
      match member with
      | .Number n =>
        if ratIsInt n then do
          let idx := ratToUsize n
          let av ←
            if idx ≥ av.length then do
              let elems ← setLen av.elems idx
              pure { av with length := idx, elems := elems }
            else pure av
          let elems ← listWrite av.elems idx val
          let h ← hset vm.arrHeap addr { av with elems := elems }
          pure { vm with arrHeap := h }
        else do
          let key ← member.to_string
          let h ← hset vm.arrHeap addr { av with obj := minsert av.obj key val }
          pure { vm with arrHeap := h }
      | .String k =>
        if k = "length" then do
          let av ←
            match val with
            | .Number n => if ratIsInt n then pure { av with length := ratToUsize n } else pure av
            | _ => pure av
          let h ← hset vm.arrHeap addr av
          pure { vm with arrHeap := h }
        else do
          let key ← member.to_string
          let h ← hset vm.arrHeap addr { av with obj := minsert av.obj key val }
          pure { vm with arrHeap := h }
      | _ => do
        let key ← member.to_string
        let h ← hset vm.arrHeap addr { av with obj := minsert av.obj key val }
        pure { vm with arrHeap := h }
    | .Arguments =>
      match member with
      | .Number n =>
        if ratIsInt n then
          let idx := vm.bp + ratToUsize n
          if idx < vm.lp then do
            let stack ← vecSetBottom rest idx val
            pure { vm with stack := stack }
          else some vm
        else some vm
      | _ => some vm
    | _ => none
  | _ => none

/-! ### Scope-chain operations (`CallObject` methods) -/

/-- `CallObject::set_value`: insert into the shared `vals` map. -/
def set_value (heap : List ObjMap) (co : CallObject) (name : String)
    (val : Value) : Option (List ObjMap) := do
  let m ← hget heap co.vals
  hset heap co.vals (minsert m name val)

/-- `CallObject::set_value_if_exist`: update the first chain record that
binds `name`; fall back to declaring in the chain root. -/
def set_value_if_exist (heap : List ObjMap) :
    CallObject → String → Value → Option (List ObjMap)
  | .mk vals _ _ parent, name, val => do
    let m ← hget heap vals
    match mlookup m name with
    | some _ => hset heap vals (minsert m name val)
    | none =>
      match parent with
      | some p => set_value_if_exist heap p name val
      | none => hset heap vals (minsert m name val)

/-- `CallObject::get_value`: walk parent-ward; the `panic!()` on a missing
binding at the chain root is `none`. -/
def get_value (heap : List ObjMap) : CallObject → String → Option Value
  | .mk vals _ _ parent, name => do
    let m ← hget heap vals
    match mlookup m name with
    | some v => some v
    | none =>
      match parent with
      | some p => get_value heap p name
      | none => none

/-! ### Simple opcodes -/

def end_ (vm : VMState) : Option VMState := some vm

def create_context (vm : VMState) : Option VMState := do
  let _ ← fetch32 vm.insts (vm.pc + 1)
  pure { vm with pc := vm.pc + 5 }

def push_int8 (vm : VMState) : Option VMState := do
  let n ← fetch8 vm.insts (vm.pc + 1)
  pure { vm with pc := vm.pc + 2, stack := .Number (n : ℚ) :: vm.stack }

def push_int32 (vm : VMState) : Option VMState := do
  let n ← fetch32 vm.insts (vm.pc + 1)
  pure { vm with pc := vm.pc + 5, stack := .Number (int32Of n : ℚ) :: vm.stack }

def push_false (vm : VMState) : Option VMState :=
  some { vm with pc := vm.pc + 1, stack := .Bool false :: vm.stack }

def push_true (vm : VMState) : Option VMState :=
  some { vm with pc := vm.pc + 1, stack := .Bool true :: vm.stack }

def push_const (vm : VMState) : Option VMState := do
  let n ← fetch32 vm.insts (vm.pc + 1)
  let v ← vm.constValues[n]?
  pure { vm with pc := vm.pc + 5, stack := v :: vm.stack }

def push_this (vm : VMState) : Option VMState := do
  let v ← vecGetBottom vm.stack vm.bp
  pure { vm with pc := vm.pc + 1, stack := v :: vm.stack }

def push_arguments (vm : VMState) : Option VMState :=
  some { vm with pc := vm.pc + 1, stack := .Arguments :: vm.stack }

/-- `fn neg`: negate a Number in place; `unimplemented!()` otherwise. -/
def neg (vm : VMState) : Option VMState :=
  match vm.stack with
  | .Number n :: rest =>
    some { vm with pc := vm.pc + 1, stack := .Number (-n) :: rest }
  | _ => none

def create_object (vm : VMState) : Option VMState := do
  let len ← fetch32 vm.insts (vm.pc + 1)
  let vm := { vm with pc := vm.pc + 5 }
  let (map, stack) ← createObjectLoop vm.stack len []
  pure { vm with stack := .Object vm.objHeap.length :: stack,
                 objHeap := vm.objHeap ++ [map] }
where
  /-- pop a `String` name (else `panic!()`) and a value, `len` times. -/
  createObjectLoop : List Value → Nat → ObjMap → Option (ObjMap × List Value)
    | stack, 0, map => some (map, stack)
    | .String name :: val :: stack, n + 1, map =>
      createObjectLoop stack n (minsert map name val)
    | _, _ + 1, _ => none

def create_array (vm : VMState) : Option VMState := do
  let len ← fetch32 vm.insts (vm.pc + 1)
  let vm := { vm with pc := vm.pc + 5 }
  let (arr, stack) ← popN vm.stack len
  let (heap, av) := ArrayValue.new vm.objHeap arr
  pure { vm with stack := .Array vm.arrHeap.length :: stack,
                 objHeap := heap, arrHeap := vm.arrHeap ++ [av] }

def get_global (vm : VMState) : Option VMState := do
  let _ ← fetch32 vm.insts (vm.pc + 1)
  pure { vm with pc := vm.pc + 5 }

def set_global (vm : VMState) : Option VMState := do
  let _ ← fetch32 vm.insts (vm.pc + 1)
  pure { vm with pc := vm.pc + 5 }

def get_local (vm : VMState) : Option VMState := do
  let n ← fetch32 vm.insts (vm.pc + 1)
  let v ← vecGetBottom vm.stack (vm.lp + n)
  pure { vm with pc := vm.pc + 5, stack := v :: vm.stack }

def set_local (vm : VMState) : Option VMState := do
  let n ← fetch32 vm.insts (vm.pc + 1)
  match vm.stack with
  | v :: rest => do
    let stack ← vecSetBottom rest (vm.lp + n) v
    pure { vm with pc := vm.pc + 5, stack := stack }
  | [] => none

def get_arg_local (vm : VMState) : Option VMState := do
  let n ← fetch32 vm.insts (vm.pc + 1)
  let v ← vecGetBottom vm.stack (vm.bp + n)
  pure { vm with pc := vm.pc + 5, stack := v :: vm.stack }

def set_arg_local (vm : VMState) : Option VMState := do
  let n ← fetch32 vm.insts (vm.pc + 1)
  match vm.stack with
  | v :: rest => do
    let stack ← vecSetBottom rest (vm.bp + n) v
    pure { vm with pc := vm.pc + 5, stack := stack }
  | [] => none

/-- `loop_bgn_end.insert` (`HashMap<isize, isize>`). -/
def loopInsert : List (Int × Int) → Int → Int → List (Int × Int)
  | [], k, v => [(k, v)]
  | (k', v') :: rest, k, v =>
    if k' = k then (k, v) :: rest else (k', v') :: loopInsert rest k v

def jmp (vm : VMState) : Option VMState := do
  let raw ← fetch32 vm.insts (vm.pc + 1)
  let dst := int32Of raw
  let pc2 := vm.pc + 5
  let vm :=
    if dst < 0 then { vm with loopBgnEnd := loopInsert vm.loopBgnEnd (pc2 + dst) pc2 }
    else vm
  pure { vm with pc := pc2 + dst }

def jmp_if_false (vm : VMState) : Option VMState := do
  let raw ← fetch32 vm.insts (vm.pc + 1)
  let dst := int32Of raw
  let pc2 := vm.pc + 5
  match vm.stack with
  | cond :: rest =>
    match cond with
    | .Bool false => pure { vm with pc := pc2 + dst, stack := rest }
    | _ => pure { vm with pc := pc2, stack := rest }
  | [] => none

def double (vm : VMState) : Option VMState :=
  match vm.stack with
  | v :: _ => some { vm with pc := vm.pc + 1, stack := v :: vm.stack }
  | [] => none

/-- `fn pop`: `Vec::pop` with the result dropped (no panic on empty). -/
def pop (vm : VMState) : Option VMState :=
  some { vm with pc := vm.pc + 1, stack := vm.stack.tail }

def land (vm : VMState) : Option VMState := some { vm with pc := vm.pc + 1 }

def lor (vm : VMState) : Option VMState := some { vm with pc := vm.pc + 1 }

def set_cur_callobj (vm : VMState) : Option VMState :=
  match vm.stack with
  | .Function e o co :: rest =>
    match vm.scope with
    | top :: _ =>
      some { vm with pc := vm.pc + 1,
                     stack := .Function e o (co.setParent (some top)) :: rest }
    | [] => none
  | _ => some { vm with pc := vm.pc + 1 }

def get_name (vm : VMState) : Option VMState := do
  let id ← fetch32 vm.insts (vm.pc + 1)
  let name ← vm.constStrings[id]?
  match vm.scope with
  | top :: _ => do
    let v ← get_value vm.objHeap top name
    pure { vm with pc := vm.pc + 5, stack := v :: vm.stack }
  | [] => none

def set_name (vm : VMState) : Option VMState := do
  let id ← fetch32 vm.insts (vm.pc + 1)
  let name ← vm.constStrings[id]?
  match vm.stack with
  | v :: rest =>
    match vm.scope with
    | top :: _ => do
      let heap ← set_value_if_exist vm.objHeap top name v
      pure { vm with pc := vm.pc + 5, stack := rest, objHeap := heap }
    | [] => none
  | [] => none

def decl_var (vm : VMState) : Option VMState := do
  let id ← fetch32 vm.insts (vm.pc + 1)
  let name ← vm.constStrings[id]?
  match vm.stack with
  | v :: rest =>
    match vm.scope with
    | top :: _ => do
      let heap ← set_value vm.objHeap top name v
      pure { vm with pc := vm.pc + 5, stack := rest, objHeap := heap }
    | [] => none
  | [] => none

def assign_func_rest_param (vm : VMState) : Option VMState := do
  let nparams ← fetch32 vm.insts (vm.pc + 1)
  let dst ← fetch32 vm.insts (vm.pc + 5)
  let vm := { vm with pc := vm.pc + 9 }
  if vm.lp < vm.bp then none  -- `lp - bp` underflows
  else do
    let restParams ← ((List.range (vm.lp - vm.bp)).drop nparams).mapM
      (fun i => vecGetBottom vm.stack (vm.bp + i))
    let (heap, av) := ArrayValue.new vm.objHeap restParams
    let stack ← vecSetBottom vm.stack (vm.lp + dst) (.Array vm.arrHeap.length)
    pure { vm with stack := stack, objHeap := heap, arrHeap := vm.arrHeap ++ [av] }

/-- `fn return_`: pop a history frame, drain `sp..len-1` keeping the
return value on top, restore `pc`.  `bp`/`lp` of the frame are read but
not restored. -/
def return_ (vm : VMState) : Option VMState :=
  match vm.history with
  | [] => none  -- `unreachable!()`
  | (_bp, _lp, sp, return_pc) :: hist =>
    match vm.stack with
    | [] => none  -- `len - 1` wraps, `drain` panics
    | top :: below =>
      if sp > below.length then none  -- invalid drain range panics
      else some { vm with
        stack := top :: below.drop (below.length - sp),
        history := hist, pc := return_pc }

/-! ### `call` and `construct` -/

/-- The host builtin table (`builtin_functions`): the seven builtin bodies
live in `builtin.rs`, which is not under `src/`, so the table is a
parameter of the interpreter; every theorem below quantifies over it. -/
abbrev BuiltinFn := Nat → List Value → VMState → Option VMState

/-- Bind `formals[i] := args[i]` for `args` in declaration order — the
`args.iter().rev().enumerate()` loop.  Indexing `param_names[i]` panics
(`none`) when the loop runs past the formals. -/
def bindParams (heap : List ObjMap) (valsAddr : Nat) (names : List String) :
    List Value → Nat → Option (List ObjMap)
  | [], _ => some heap
  | arg :: args, i => do
    let name ← names[i]?
    let m ← hget heap valsAddr
    let heap ← hset heap valsAddr (minsert m name arg)
    bindParams heap valsAddr names args (i + 1)

/-- The callee-unwrapping `loop` of `fn call`; `vm.pc` has already been
advanced past the operand. -/
def callLoop (builtins : BuiltinFn) (run : VMState → Option VMState)
    (vm : VMState) (argc : Nat) (this? : Option Value) :
    Value → Option VMState
  | .BuiltinFunction x => do
    let (args, rest) ← popN vm.stack argc
    let args := args.reverse
    let args := match this? with | some t => t :: args | none => args
    builtins x args { vm with stack := rest }
  | .Function dst _obj callobj =>
    -- `args_all_number` slices `stack[len - argc..len]` before anything
    -- else: out of bounds when `argc` exceeds the stack (JIT body is
    -- disabled; the result is unused).
    if argc > vm.stack.length then none
    else do
      let callobj := callobj.setVals vm.objHeap.length
      let heap := vm.objHeap ++ [[]]
      let (args, rest) ← popN vm.stack argc
      let heap ← bindParams heap callobj.vals callobj.param_names args.reverse 0
      let vm' ← run { vm with
        stack := rest, objHeap := heap,
        scope := callobj :: vm.scope,
        history := (0, 0, rest.length, vm.pc) :: vm.history,
        pc := dst }
      pure { vm' with scope := vm'.scope.tail }
  | .NeedThis callee => callLoop builtins run vm argc this? callee
  | .WithThis callee this => callLoop builtins run vm argc (some this) callee
  | c =>
    some { vm with output := vm.output ++ [⟨"Call: err", c, vm.pc⟩] }

/-- `fn call` of `vm.rs`. -/
def call (builtins : BuiltinFn) (run : VMState → Option VMState)
    (vm : VMState) : Option VMState := do
  let argc ← fetch32 vm.insts (vm.pc + 1)
  match vm.stack with
  | callee :: rest =>
    callLoop builtins run { vm with pc := vm.pc + 5, stack := rest } argc none callee
  | [] => none

/-- The callee-unwrapping `loop` of `fn construct`. -/
def constructLoop (builtins : BuiltinFn) (run : VMState → Option VMState)
    (vm : VMState) (argc : Nat) : Value → Option VMState
  | .Function dst obj callobj =>
    -- history frame pushed before the arguments are popped, with sp = 0
    let vm := { vm with history := (0, 0, 0, vm.pc) :: vm.history }
    -- `let pos = stack.len() - argc` (unused; underflows when argc is
    -- larger than the stack)
    if argc > vm.stack.length then none
    else do
      let objMap ← hget vm.objHeap obj
      let protoV := (mlookup objMap "prototype").getD .Undefined
      let thisAddr := vm.objHeap.length
      let heap := vm.objHeap ++ [[("__proto__", protoV)]]
      let (args, rest) ← popN vm.stack argc
      let heap ← bindParams heap callobj.vals callobj.param_names args.reverse 0
      let callobj := callobj.setThis (some thisAddr)
      let vm' ← run { vm with
        stack := rest, objHeap := heap,
        scope := callobj :: vm.scope,
        pc := dst }
      let vm' := { vm' with scope := vm'.scope.tail }
      match vm'.stack with
      | [] => none  -- `last_mut().unwrap()` panics
      | top :: below =>
        match top with
        | .Object _ | .Array _ | .Function _ _ _ | .BuiltinFunction _ => pure vm'
        | _ => pure { vm' with stack := .Object thisAddr :: below }
  | .NeedThis callee => constructLoop builtins run vm argc callee
  | .WithThis callee _this => constructLoop builtins run vm argc callee
  | c =>
    some { vm with output := vm.output ++ [⟨"Constract: err", c, vm.pc⟩] }

/-- `fn construct` of `vm.rs`. -/
def construct (builtins : BuiltinFn) (run : VMState → Option VMState)
    (vm : VMState) : Option VMState := do
  let argc ← fetch32 vm.insts (vm.pc + 1)
  match vm.stack with
  | callee :: rest =>
    constructLoop builtins run { vm with pc := vm.pc + 5, stack := rest } argc callee
  | [] => none

/-! ### The dispatch table and the fetch-execute loop -/

/-- One step of the dispatch table `op_table[code]`; `run` is the nested
`do_run` used by `call`/`construct`, `fuel` bounds prototype walks. -/
def execOp (builtins : BuiltinFn) (run : VMState → Option VMState)
    (fuel : Nat) (code : Nat) (vm : VMState) : Option VMState :=
  match code with
  | 0 => end_ vm
  | 1 => create_context vm
  | 2 => construct builtins run vm
  | 3 => create_object vm
  | 4 => create_array vm
  | 5 => push_int8 vm
  | 6 => push_int32 vm
  | 7 => push_false vm
  | 8 => push_true vm
  | 9 => push_const vm
  | 10 => push_this vm
  | 11 => push_arguments vm
  | 12 => neg vm
  | 13 => binary .Add { vm with pc := vm.pc + 1 }
  | 14 => binary .Sub { vm with pc := vm.pc + 1 }
  | 15 => binary .Mul { vm with pc := vm.pc + 1 }
  | 16 => binary .Div { vm with pc := vm.pc + 1 }
  | 17 => binary .Rem { vm with pc := vm.pc + 1 }
  | 18 => binary .Lt { vm with pc := vm.pc + 1 }
  | 19 => binary .Gt { vm with pc := vm.pc + 1 }
  | 20 => binary .Le { vm with pc := vm.pc + 1 }
  | 21 => binary .Ge { vm with pc := vm.pc + 1 }
  | 22 => binary .Eq { vm with pc := vm.pc + 1 }
  | 23 => binary .Ne { vm with pc := vm.pc + 1 }
  | 24 => binary .SEq { vm with pc := vm.pc + 1 }
  | 25 => binary .SNe { vm with pc := vm.pc + 1 }
  | 26 => binary .And { vm with pc := vm.pc + 1 }
  | 27 => binary .Or { vm with pc := vm.pc + 1 }
  | 28 => get_member fuel vm
  | 29 => set_member vm
  | 30 => get_global vm
  | 31 => set_global vm
  | 32 => get_local vm
  | 33 => set_local vm
  | 34 => get_arg_local vm
  | 35 => set_arg_local vm
  | 36 => jmp_if_false vm
  | 37 => jmp vm
  | 38 => call builtins run vm
  | 39 => return_ vm
  | 40 => assign_func_rest_param vm
  | 41 => double vm
  | 42 => pop vm
  | 43 => land vm
  | 44 => lor vm
  | 45 => set_cur_callobj vm
  | 46 => get_name vm
  | 47 => set_name vm
  | 48 => decl_var vm
  | _ => none  -- `op_table[code]` out of bounds

/-- `VM::do_run`: fetch-execute until the executed opcode was `RETURN` or
`END`.  `fuel` bounds the number of steps, nested invocations and
prototype walks; `none` at zero fuel models non-termination or host stack
overflow, never a completed run. -/
def do_run (builtins : BuiltinFn) : Nat → VMState → Option VMState
  | 0, _ => none
  | fuel + 1, vm => do
    let code ← fetch8 vm.insts vm.pc
    let vm' ← execOp builtins (do_run builtins fuel) fuel code vm
    if code = VMInst.RETURN ∨ code = VMInst.END then pure vm'
    else do_run builtins fuel vm'

/-! ## The free-variable analyzer (`fv_finder.rs`) -/

/-- `FormalParameter` of `node.rs`.  Modelled from the spec: `node.rs` is
not under `src/`; the analyzer consumes only the `name` field. -/
structure FormalParameter where
  name : String

/-- The AST `Node` of `node.rs`.  Modelled from the spec (§6): `node.rs`
is not under `src/`.  `FunctionDecl` carries the writable `use_this` and
free-variable annotation slots; its body is inlined as its statement list
(the analyzer requires the body to be a `StatementList` and panics
otherwise).  `Number`/`Str` literals fall into the analyzer's catch-all
arm. -/
inductive Node : Type where
  | StatementList (nodes : List Node)
  | FunctionDecl (name : CoreString) (use_this : Bool) (fv : Finset CoreString)
                 (params : List FormalParameter) (body : List Node)
  | Call (callee : Node) (args : List Node)
  | VarDecl (name : CoreString) (init : Option Node)
  | Return (val : Option Node)
  | Member (parent : Node) (member : CoreString)
  | This
  | Identifier (name : CoreString)
  | If (cond t e : Node)
  | While (cond body : Node)
  | Assign (dst src : Node)
  | UnaryOp (expr : Node)
  | BinaryOp (lhs rhs : Node)
  | TernaryOp (cond t e : Node)
  | Number (n : ℚ)
  | Str (s : CoreString)

/-- `XorShiftRng` of the `rand` crate: four 32-bit words. -/
structure XorShiftRng where
  x : Nat
  y : Nat
  z : Nat
  w : Nat

def XorShiftRng.new_unseeded : XorShiftRng :=
  ⟨0x193a6754, 0xa8a7d469, 0x97830e05, 0x113ba7bb⟩

/-- `XorShiftRng::next_u32` (Marsaglia xorshift128, wrapping u32). -/
def XorShiftRng.next_u32 (r : XorShiftRng) : Nat × XorShiftRng :=
  let t := (r.x ^^^ (r.x <<< 11 % 2 ^ 32)) % 2 ^ 32
  let w := (r.w ^^^ (r.w >>> 19) ^^^ (t ^^^ (t >>> 8))) % 2 ^ 32
  (w, ⟨r.y, r.z, r.w, w⟩)

/-- The mutable state of `FreeVariableFinder`.  `varmap` and
`mangled_function_name` are Vec stacks held head-is-index-0 (push at the
tail, `varmap[0]` is the head).  `err` records that the source panicked
(`unimplemented!()` on a malformed assignment target); a state with
`err = true` is frozen — every further step returns it unchanged — so it
marks the point where the source process aborts. -/
structure FVState where
  varmap : List (Finset CoreString)
  cur_fv : Finset CoreString
  mangled_function_name : List (List (CoreString × CoreString))
  use_this : Bool
  xorshift : XorShiftRng
  err : Bool

/-- `FreeVariableFinder::new()`. -/
def FreeVariableFinder.new : FVState :=
  { varmap := [insert "console" ∅], cur_fv := ∅, mangled_function_name := [],
    use_this := false, xorshift := .new_unseeded, err := false }

/-- `varmap[0]`. -/
def v0 (l : List (Finset String)) : Finset String := l.headD ∅

/-- `varmap[0] = ...` (the stack is never empty in a source run). -/
def vset0 : List (Finset String) → Finset String → List (Finset String)
  | [], _ => []
  | _ :: t, s => s :: t

/-- `varmap.last().unwrap()`. -/
def vlast (l : List (Finset String)) : Finset String := l.getLastD ∅

/-- `varmap.last_mut().unwrap() = ...`. -/
def vsetLast (l : List (Finset String)) (s : Finset String) :
    List (Finset String) := l.dropLast ++ [s]

/-- `mangled_function_name.last_mut().unwrap()` (defaulted; never empty
when the source reads it mutably). -/
def mglast (l : List (List (String × String))) : List (String × String) :=
  l.getLastD []

def mgsetLast (l : List (List (String × String)))
    (m : List (String × String)) : List (List (String × String)) :=
  l.dropLast ++ [m]

/-- Decidable Finset membership as the `HashSet::contains` test. -/
def fcontains (s : Finset String) (x : String) : Bool := decide (x ∈ s)

/-- The hoisting loop at the head of the `FunctionDecl` arm of
`FreeVariableFinder::run`: for each statement that is a `FunctionDecl`,
draw a mangle when the nesting depth exceeds one, declare the original
name in the current scope, record the mangle, and rename the declaration
in place.  Returns the new name chosen for each position (`none` for
non-declarations and unmangled declarations). -/
def hoistDecls (s : FVState) : List Node → FVState × List (Option CoreString)
  | [] => (s, [])
  | n :: ns =>
    match n with
    | .FunctionDecl name _ _ _ _ =>
      let nested : Bool := decide (s.varmap.length + 1 > 2)
      let rr := s.xorshift.next_u32
      let mn? : Option CoreString :=
        if nested then some (name ++ "." ++ toString rr.1) else none
      let s := if nested then { s with xorshift := rr.2 } else s
      let s := { s with varmap := vsetLast s.varmap (insert name (vlast s.varmap)) }
      let mfn := mgsetLast s.mangled_function_name
        (minsert (mglast s.mangled_function_name) name (name ++ "." ++ toString rr.1))
      let s := if nested then { s with mangled_function_name := mfn } else s
      let r := hoistDecls s ns
      (r.1, mn? :: r.2)
    | _ =>
      let r := hoistDecls s ns
      (r.1, none :: r.2)

mutual

/-- `FreeVariableFinder::run`. -/
def runNode (s : FVState) (n : Node) : FVState × Node :=
  if s.err then (s, n) else
  match n with
  | .StatementList ns =>
    let r := runNodes s ns
    (r.1, .StatementList r.2)
  | .FunctionDecl name ut fv params body => runFnDecl s name ut fv params body
  | .Call callee args =>
    let rc := runNode s callee
    let ra := runNodes rc.1 args
    (ra.1, .Call rc.2 ra.2)
  | .VarDecl name (some i) =>
    let s := { s with varmap := vsetLast s.varmap (insert name (vlast s.varmap)) }
    let r := runNode s i
    (r.1, .VarDecl name (some r.2))
  | .VarDecl name none =>
    ({ s with varmap := vsetLast s.varmap (insert name (vlast s.varmap)) },
     .VarDecl name none)
  | .Return (some v) =>
    let r := runNode s v
    (r.1, .Return (some r.2))
  | .Return none => (s, .Return none)
  | .Member parent mem =>
    let r := runNode s parent
    (r.1, .Member r.2 mem)
  | .This => ({ s with use_this := true }, .This)
  | .Identifier name =>
    let isFvOrGv : Bool := !fcontains (v0 s.varmap) name && !fcontains (vlast s.varmap) name
    let name :=
      match s.mangled_function_name.getLast? with
      | some m =>
        match mlookup m name with
        | some mn => mn
        | none => name
      | none => name
    let s :=
      if isFvOrGv then
        if s.varmap.length = 1 then
          { s with varmap := vset0 s.varmap (insert name (v0 s.varmap)) }
        else { s with cur_fv := insert name s.cur_fv }
      else s
    (s, .Identifier name)
  | .If cond t e =>
    let rc := runNode s cond
    let rt := runNode rc.1 t
    let re := runNode rt.1 e
    (re.1, .If rc.2 rt.2 re.2)
  | .While cond body =>
    let rc := runNode s cond
    let rb := runNode rc.1 body
    (rb.1, .While rc.2 rb.2)
  | .Assign (.Identifier name) src =>
    let s :=
      if !s.varmap.any (fun v => fcontains v name) then
        { s with varmap := vset0 s.varmap (insert name (v0 s.varmap)) }
      else if !fcontains (v0 s.varmap) name && !fcontains (vlast s.varmap) name then
        { s with cur_fv := insert name s.cur_fv }
      else s
    let r := runNode s src
    (r.1, .Assign (.Identifier name) r.2)
  | .Assign (.Member parent mem) src =>
    let rp := runNode s parent
    let rs := runNode rp.1 src
    (rs.1, .Assign (.Member rp.2 mem) rs.2)
  | .Assign dst src => ({ s with err := true }, .Assign dst src)
  | .UnaryOp expr =>
    let r := runNode s expr
    (r.1, .UnaryOp r.2)
  | .BinaryOp lhs rhs =>
    let rl := runNode s lhs
    let rr := runNode rl.1 rhs
    (rr.1, .BinaryOp rl.2 rr.2)
  | .TernaryOp cond t e =>
    let rc := runNode s cond
    let rt := runNode rc.1 t
    let re := runNode rt.1 e
    (re.1, .TernaryOp rc.2 rt.2 re.2)
  | n => (s, n)
termination_by (sizeOf n, 2)

/-- The `FunctionDecl` arm of `run`: push a scope seeded with the
function's name and formals, push a mangling map, hoist (and possibly
rename) the inner declarations, run the non-declaration statements, then
the hoisted declarations, pop the mangling map, subtract the declared
names from the accumulated free set, write the annotations, pop the
scope, and declare the function's (current) name in the enclosing
scope. -/
def runFnDecl (s : FVState) (name : CoreString) (ut : Bool)
    (fv : Finset CoreString) (params : List FormalParameter)
    (body : List Node) : FVState × Node :=
  if s.err then (s, .FunctionDecl name ut fv params body) else
  let scope0 : Finset CoreString :=
    params.foldl (fun acc p => insert p.name acc) (insert name ∅ : Finset CoreString)
  let s := { s with varmap := s.varmap ++ [scope0] }
  let s := { s with mangled_function_name := s.mangled_function_name ++ [[]] }
  let rh := hoistDecls s body
  let rp := runNonDecls rh.1 body rh.2
  let rd := runDecls rp.1 body rh.2 rp.2
  let s := rd.1
  let s := { s with mangled_function_name := s.mangled_function_name.dropLast }
  let newFv := s.cur_fv \ vlast s.varmap
  let s := { s with cur_fv := newFv }
  let annUt := s.use_this
  let s := { s with varmap := s.varmap.dropLast }
  let s := { s with varmap := vsetLast s.varmap (insert name (vlast s.varmap)) }
  (s, .FunctionDecl name annUt newFv params rd.2)
termination_by (sizeOf body, 1)

/-- `run` over a statement list (the `StatementList` arm / `Call`
arguments). -/
def runNodes (s : FVState) : List Node → FVState × List Node
  | [] => (s, [])
  | n :: ns =>
    let r := runNode s n
    let rs := runNodes r.1 ns
    (rs.1, r.2 :: rs.2)
termination_by l => (sizeOf l, 2)

/-- The second pass of the `FunctionDecl` arm: run every statement that is
not a `FunctionDecl`; declaration positions keep the (renamed) node. -/
def runNonDecls (s : FVState) : List Node → List (Option CoreString) → FVState × List Node
  | [], _ => (s, [])
  | .FunctionDecl nm ut fv ps bd :: ns, renames =>
    let r := renames.headD none
    let rest := runNonDecls s ns renames.tail
    (rest.1, .FunctionDecl (r.getD nm) ut fv ps bd :: rest.2)
  | n :: ns, renames =>
    let rn := runNode s n
    let rest := runNonDecls rn.1 ns renames.tail
    (rest.1, rn.2 :: rest.2)
termination_by l _ => (sizeOf l, 0)

/-- The third pass (`for index in func_decl_index`): run the hoisted
declarations, under their new names, in original order; other positions
keep the output of the second pass. -/
def runDecls (s : FVState) : List Node → List (Option CoreString) → List Node → FVState × List Node
  | [], _, _ => (s, [])
  | .FunctionDecl nm ut fv prms bd :: os, renames, processed =>
    let r := renames.headD none
    let rf := runFnDecl s (r.getD nm) ut fv prms bd
    let rest := runDecls rf.1 os renames.tail processed.tail
    (rest.1, rf.2 :: rest.2)
  | o :: os, renames, processed =>
    let p := processed.headD o
    let rest := runDecls s os renames.tail processed.tail
    (rest.1, p :: rest.2)
termination_by o _ _ => (sizeOf o, 0)

end

/-- The first top-level pass of `run_toplevel`: declare every top-level
function name into the global set; run every other statement. -/
def toplevelPassA (s : FVState) : List Node → FVState × List Node
  | [] => (s, [])
  | n :: ns =>
    match n with
    | .FunctionDecl nm _ _ _ _ =>
      let s := { s with varmap := vset0 s.varmap (insert nm (v0 s.varmap)) }
      let r := toplevelPassA s ns
      (r.1, n :: r.2)
    | _ =>
      let rn := runNode s n
      let r := toplevelPassA rn.1 ns
      (r.1, rn.2 :: r.2)

/-- The second top-level pass: run each function declaration, resetting
`use_this` (but not `cur_fv`) after each one. -/
def toplevelPassB (s : FVState) : List Node → FVState × List Node
  | [] => (s, [])
  | n :: ns =>
    match n with
    | .FunctionDecl _ _ _ _ _ =>
      let rn := runNode s n
      let s := { rn.1 with use_this := false }
      let r := toplevelPassB s ns
      (r.1, rn.2 :: r.2)
    | _ =>
      let r := toplevelPassB s ns
      (r.1, n :: r.2)

/-- `FreeVariableFinder::run_toplevel` applied to the program's statement
list (`unreachable!()` on any other node shape). -/
def run_toplevel (s : FVState) (nodes : List Node) : FVState × List Node :=
  let r := toplevelPassA s nodes
  toplevelPassB r.1 r.2

/-! ## Spec-side definitions used to state the claims -/

/-- The four operand-type pairs `fn binary` handles (in `(lhs, rhs)`
order): number/number, string/number, number/string, string/string. -/
def matchedPair : Value → Value → Bool
  | .Number _, .Number _ => true
  | .String _, .Number _ => true
  | .Number _, .String _ => true
  | .String _, .String _ => true
  | _, _ => false

/-- Fully unwrap `NeedThis`/`WithThis` layers of a callee. -/
def coreCallee : Value → Value
  | .NeedThis v => coreCallee v
  | .WithThis f _ => coreCallee f
  | v => v

/-- A value that is neither a user `Function` nor a `BuiltinFunction`. -/
def notCallable : Value → Bool
  | .Function _ _ _ => false
  | .BuiltinFunction _ => false
  | _ => true

/-- Divergence of `obj_find_val` at an object/key: no amount of host
stack suffices (the source recursion never returns). -/
def objFindValDiverges (heap : List ObjMap) (obj : ObjMap) (key : String) : Prop :=
  ∀ fuel, obj_find_val fuel heap obj key = none

/-- The free-variable slot written into a `FunctionDecl` node. -/
def fvAnnOf : Node → Finset CoreString
  | .FunctionDecl _ _ fv _ _ => fv
  | _ => ∅

/-- The `use_this` slot written into a `FunctionDecl` node. -/
def utAnnOf : Node → Bool
  | .FunctionDecl _ ut _ _ _ => ut
  | _ => false

/-- The name field of a `FunctionDecl` node. -/
def nameAnnOf : Node → Option CoreString
  | .FunctionDecl nm _ _ _ _ => some nm
  | _ => none

mutual
/-- `this` appears textually in a node, nested function bodies
included. -/
def containsThis : Node → Bool
  | .StatementList ns => containsThisList ns
  | .FunctionDecl _ _ _ _ body => containsThisList body
  | .Call c args => containsThis c || containsThisList args
  | .VarDecl _ (some i) => containsThis i
  | .VarDecl _ none => false
  | .Return (some v) => containsThis v
  | .Return none => false
  | .Member p _ => containsThis p
  | .This => true
  | .If c t e => containsThis c || containsThis t || containsThis e
  | .While c b => containsThis c || containsThis b
  | .Assign d s => containsThis d || containsThis s
  | .UnaryOp e => containsThis e
  | .BinaryOp l r => containsThis l || containsThis r
  | .TernaryOp c t e => containsThis c || containsThis t || containsThis e
  | _ => false

def containsThisList : List Node → Bool
  | [] => false
  | n :: ns => containsThis n || containsThisList ns
end

/-- `this` occurrences among the statements that are not function
declarations (the ones the second pass runs). -/
def containsThisNonDecls : List Node → Bool
  | [] => false
  | .FunctionDecl _ _ _ _ _ :: ns => containsThisNonDecls ns
  | n :: ns => containsThis n || containsThisNonDecls ns

/-- `this` occurrences inside the hoisted function declarations (the ones
the third pass runs). -/
def containsThisDecls : List Node → Bool
  | [] => false
  | .FunctionDecl _ _ _ _ body :: ns => containsThisList body || containsThisDecls ns
  | _ :: ns => containsThisDecls ns

mutual
/-- The set of identifiers textually used in a node (`Identifier` leaves;
`Member` names and declaration names are not identifier uses). -/
def usesOf : Node → Finset CoreString
  | .StatementList ns => usesOfList ns
  | .FunctionDecl _ _ _ _ body => usesOfList body
  | .Call c args => usesOf c ∪ usesOfList args
  | .VarDecl _ (some i) => usesOf i
  | .VarDecl _ none => ∅
  | .Return (some v) => usesOf v
  | .Return none => ∅
  | .Member p _ => usesOf p
  | .Identifier name => insert name ∅
  | .If c t e => usesOf c ∪ usesOf t ∪ usesOf e
  | .While c b => usesOf c ∪ usesOf b
  | .Assign d s => usesOf d ∪ usesOf s
  | .UnaryOp e => usesOf e
  | .BinaryOp l r => usesOf l ∪ usesOf r
  | .TernaryOp c t e => usesOf c ∪ usesOf t ∪ usesOf e
  | _ => ∅

def usesOfList : List Node → Finset CoreString
  | [] => ∅
  | n :: ns => usesOf n ∪ usesOfList ns
end

mutual
/-- The set of `var`-declared names in a node (function-free nodes). -/
def declsOf : Node → Finset CoreString
  | .StatementList ns => declsOfList ns
  | .Call c args => declsOf c ∪ declsOfList args
  | .VarDecl name (some i) => insert name (declsOf i)
  | .VarDecl name none => insert name ∅
  | .Return (some v) => declsOf v
  | .Return none => ∅
  | .Member p _ => declsOf p
  | .If c t e => declsOf c ∪ declsOf t ∪ declsOf e
  | .While c b => declsOf c ∪ declsOf b
  | .UnaryOp e => declsOf e
  | .BinaryOp l r => declsOf l ∪ declsOf r
  | .TernaryOp c t e => declsOf c ∪ declsOf t ∪ declsOf e
  | _ => ∅

def declsOfList : List Node → Finset CoreString
  | [] => ∅
  | n :: ns => declsOf n ∪ declsOfList ns
end

mutual
/-- A node containing neither function declarations nor assignments
(the class over which the free-variable computation is characterised
exactly). -/
def plainNode : Node → Bool
  | .StatementList ns => plainNodeList ns
  | .FunctionDecl _ _ _ _ _ => false
  | .Assign _ _ => false
  | .Call c args => plainNode c && plainNodeList args
  | .VarDecl _ (some i) => plainNode i
  | .VarDecl _ none => true
  | .Return (some v) => plainNode v
  | .Return none => true
  | .Member p _ => plainNode p
  | .If c t e => plainNode c && plainNode t && plainNode e
  | .While c b => plainNode c && plainNode b
  | .UnaryOp e => plainNode e
  | .BinaryOp l r => plainNode l && plainNode r
  | .TernaryOp c t e => plainNode c && plainNode t && plainNode e
  | _ => true

def plainNodeList : List Node → Bool
  | [] => true
  | n :: ns => plainNode n && plainNodeList ns
end

/-- The set of formal-parameter names. -/
def pnamesOf (params : List FormalParameter) : Finset CoreString :=
  params.foldl (fun acc p => insert p.name acc) ∅


/-- The body slot of a `FunctionDecl` node. -/
def bodyOf : Node → List Node
  | .FunctionDecl _ _ _ _ b => b
  | _ => []

/-- The two-name program family `function f() { function h() { return h() }
return h() }`, analyzed from a fresh analyzer: the inner function is
declared at nesting depth 2 and is referenced once from the enclosing
body and once (recursively) from its own body. -/
def mangleDemo (f h : CoreString) : List Node :=
  (run_toplevel FreeVariableFinder.new
    [.FunctionDecl f false ∅ []
        [.FunctionDecl h false ∅ [] [.Return (some (.Call (.Identifier h) []))],
         .Return (some (.Call (.Identifier h) []))]]).2

/-- One analysis step over function- and assignment-free code, as a state
relation: the error flag stays clear, the mangling stack is untouched, the
innermost scope grows by exactly the `var`-declared names `D`, and the
accumulated free set grows monotonically, staying below the identifier
uses `U` that are not pre-existing globals, and collecting every use that
is neither a global nor in the final innermost scope. -/
structure PlainStep (s s2 : FVState) (U D : Finset CoreString) : Prop where
  perr : s2.err = false
  pmangled : s2.mangled_function_name = s.mangled_function_name
  pvarmap : s2.varmap = s.varmap.dropLast ++ [vlast s.varmap ∪ D]
  pmono : s.cur_fv ⊆ s2.cur_fv
  pupper : s2.cur_fv ⊆ s.cur_fv ∪ (U \ v0 s.varmap)
  pcollect : ∀ u, u ∈ U → u ∉ v0 s.varmap → u ∉ vlast s2.varmap → u ∈ s2.cur_fv

/-! ## Basic numeric lemmas -/

theorem ratFloor_natCast (n : Nat) : Rat.floor (n : ℚ) = n := by
  rw [Rat.floor_def']
  simp

theorem ratIsInt_natCast (n : Nat) : ratIsInt (n : ℚ) = true := by
  simp [ratIsInt, ratFloor_natCast]

theorem ratToUsize_natCast (n : Nat) (h : n ≤ 2 ^ 64 - 1) :
    ratToUsize (n : ℚ) = n := by
  simp [ratToUsize, ratFloor_natCast]
  omega

/-! ## C8 — binary opcodes on mismatched operand pairs -/

/-- C8 (counterexample): executing a binary arithmetic opcode (here
`add`, via the shared `binary` engine all fifteen delegate to) with two
`Bool` operands does **not** leave the value stack unchanged: both
operands are popped and nothing is pushed, so the stack shrinks from two
values to zero.  The claim's "the value stack after the instruction is
exactly the value stack before it" is therefore false. -/
theorem binary_bool_bool_consumes :
    binary .Add { stack := [.Bool true, .Bool true] } =
      some { stack := ([] : List Value) } ∧
    ([] : List Value) ≠ [Value.Bool true, Value.Bool true] := by
  refine ⟨rfl, by simp⟩

/-- C8 (amended): for every binary opcode and every operand pair that is
none of number/number, string/number, number/string or string/string,
the instruction pushes nothing but still consumes both operands: the
stack after the instruction is the stack before it with the two operands
removed. -/
theorem binary_mismatched_consumes (op : BinOp) (vm : VMState)
    (lhs rhs : Value) (rest : List Value)
    (hstk : vm.stack = rhs :: lhs :: rest)
    (hmm : matchedPair lhs rhs = false) :
    binary op vm = some { vm with stack := rest } := by
  unfold binary
  rw [hstk]
  cases lhs <;> cases rhs <;> simp_all [matchedPair]

/-- Witness for `binary_mismatched_consumes` at a concrete input. -/
theorem binary_mismatched_consumes_witness :
    binary .Sub { stack := [Value.Undefined, Value.Bool false] } =
      some { stack := ([] : List Value) } :=
  binary_mismatched_consumes .Sub _ (Value.Bool false) Value.Undefined [] rfl rfl

/-! ## C2 — array writes at or past the current length -/

/-- C2 (code bug): for every array state and every integer index `n` at
or past the declared length, `set_member` aborts: the source sets
`length = n`, calls the unsafe `elems.set_len(n)` (truncation at best,
undefined behaviour past the buffer), and then writes `elems[n]`, which
is out of bounds for a vector of length at most `n` — so the write always
panics instead of extending the array with Undefined slots. -/
theorem set_member_array_extend_panics
    (vm : VMState) (addr n : Nat) (av : ArrayValue) (val : Value)
    (rest : List Value)
    (hstk : vm.stack = .Number (n : ℚ) :: .Array addr :: val :: rest)
    (hav : hget vm.arrHeap addr = some av)
    (hlen : av.length ≤ n) (hn : n ≤ 2 ^ 64 - 1) :
    set_member vm = none := by
  unfold set_member
  rw [hstk]
  simp only [hav, ratIsInt_natCast, ratToUsize_natCast n hn, Option.bind_eq_bind]
  by_cases hle : n ≤ av.elems.length
  · simp [setLen, listWrite, hle, hlen, Nat.lt_irrefl, Option.bind]
  · simp [setLen, listWrite, hle, hlen, Option.bind]

/-- Witness for `set_member_array_extend_panics`: writing index 0 of a
fresh empty array panics. -/
theorem set_member_array_extend_panics_witness :
    set_member { stack := [.Number ((0 : Nat) : ℚ), .Array 0, .Number 1],
                 arrHeap := [⟨[], 0, []⟩] } = none :=
  set_member_array_extend_panics _ 0 0 ⟨[], 0, []⟩ (.Number 1) [] rfl rfl
    (Nat.le_refl 0) (by norm_num)

/-! ## C3 — array reads -/

/-- C3 (counterexample): the claim quantifies over "every reachable array
state including states where the declared length differs from the number
of stored elements", but on such a state the read panics instead of
returning `arr.elems[i]`.  The state `{elems := [], length := 1}` is
reachable from a fresh empty array by `set_member(a, "length", Number 1)`
(first conjunct), and `get_member(a, Number 0)` then aborts
(second conjunct) because `0 < length` routes to `elems[0]`, which does
not exist. -/
theorem get_member_array_mismatched_state_panics :
    (set_member { stack := [.String "length", .Array 0, .Number 1],
                  arrHeap := [⟨[], 0, []⟩] } =
      some { pc := 1, stack := [], arrHeap := [⟨[], 1, []⟩] }) ∧
    get_member 5 { stack := [.Number 0, .Array 0],
                   arrHeap := [⟨[], 1, []⟩] } = none := by
  constructor <;> rfl

/-- C3 (amended): `get_member(arr, Number i)` returns `arr.elems[i]` when
`i` is below **both** the declared length and the stored element count;
it returns Undefined when `i ≥ arr.length`; and `get_member(arr,
"length")` returns `Number(arr.length)`.  (When the declared length
exceeds the stored count, reads in the gap abort — see the
counterexample.) -/
theorem get_member_array_reads :
    (∀ (vm : VMState) (fuel addr i : Nat) (av : ArrayValue) (v : Value)
       (rest : List Value),
       vm.stack = .Number (i : ℚ) :: .Array addr :: rest →
       hget vm.arrHeap addr = some av →
       i ≤ 2 ^ 64 - 1 → i < av.length → av.elems[i]? = some v →
       get_member fuel vm = some { vm with pc := vm.pc + 1, stack := v :: rest }) ∧
    (∀ (vm : VMState) (fuel addr i : Nat) (av : ArrayValue)
       (rest : List Value),
       vm.stack = .Number (i : ℚ) :: .Array addr :: rest →
       hget vm.arrHeap addr = some av →
       i ≤ 2 ^ 64 - 1 → av.length ≤ i →
       get_member fuel vm =
         some { vm with pc := vm.pc + 1, stack := .Undefined :: rest }) ∧
    (∀ (vm : VMState) (fuel addr : Nat) (av : ArrayValue)
       (rest : List Value),
       vm.stack = .String "length" :: .Array addr :: rest →
       hget vm.arrHeap addr = some av →
       get_member fuel vm =
         some { vm with pc := vm.pc + 1, stack := Value.Number (av.length : ℚ) :: rest }) := by
  refine ⟨?_, ?_, ?_⟩
  · intro vm fuel addr i av v rest hstk hav hi hlt hv
    unfold get_member
    rw [hstk]
    simp [hav, ratIsInt_natCast, ratToUsize_natCast i hi, Nat.not_le.mpr hlt,
      hv, Option.bind]
  · intro vm fuel addr i av rest hstk hav hi hge
    unfold get_member
    rw [hstk]
    simp [hav, ratIsInt_natCast, ratToUsize_natCast i hi, hge, Option.bind]
  · intro vm fuel addr av rest hstk hav
    unfold get_member
    rw [hstk]
    simp [hav, Option.bind]

/-- Witness for `get_member_array_reads` at concrete inputs: a two-element
array delivers the element at index 1, Undefined at index 5, and its
length. -/
theorem get_member_array_reads_witness :
    get_member 3 { stack := [.Number ((1 : Nat) : ℚ), .Array 0],
                   arrHeap := [⟨[.Number 10, .Number 20], 2, []⟩] } =
      some { pc := 1, stack := [.Number 20],
             arrHeap := [⟨[.Number 10, .Number 20], 2, []⟩] } ∧
    get_member 3 { stack := [.Number ((5 : Nat) : ℚ), .Array 0],
                   arrHeap := [⟨[.Number 10, .Number 20], 2, []⟩] } =
      some { pc := 1, stack := [.Undefined],
             arrHeap := [⟨[.Number 10, .Number 20], 2, []⟩] } ∧
    get_member 3 { stack := [.String "length", .Array 0],
                   arrHeap := [⟨[.Number 10, .Number 20], 2, []⟩] } =
      some { pc := 1, stack := [.Number ((2 : Nat) : ℚ)],
             arrHeap := [⟨[.Number 10, .Number 20], 2, []⟩] } := by
  refine ⟨get_member_array_reads.1 _ 3 0 1 _ (.Number 20) [] rfl rfl (by norm_num)
      (by norm_num) rfl,
    get_member_array_reads.2.1 _ 3 0 5 ⟨[.Number 10, .Number 20], 2, []⟩ []
      rfl rfl (by norm_num) (by norm_num),
    get_member_array_reads.2.2 _ 3 0 ⟨[.Number 10, .Number 20], 2, []⟩ [] rfl rfl⟩

/-! ## C9 — property lookup on cyclic prototype chains -/

/-- C9 (code bug): a cyclic `__proto__` chain is reachable — writing
`o.__proto__ = o` through `set_member` produces one (first conjunct) —
and on it the recursive `obj_find_val` never returns, whatever the
available host stack: the walk does not terminate and no Undefined is
ever produced (second conjunct).  The spec requires lookup to terminate
even on cycles; the source recursion is unbounded. -/
theorem obj_find_val_cycle_diverges :
    (set_member { stack := [.String "__proto__", .Object 0, .Object 0],
                  objHeap := [[]] } =
      some { pc := 1, stack := [], objHeap := [[("__proto__", .Object 0)]] }) ∧
    objFindValDiverges [[("__proto__", .Object 0)]] [("__proto__", .Object 0)]
      "foo" := by
  refine ⟨rfl, ?_⟩
  intro fuel
  induction fuel with
  | zero => rfl
  | succ n ih => simp [obj_find_val, mlookup, hget, ih]

/-! ## C10 — more arguments than formal parameters -/

theorem CallObject.vals_setVals (co : CallObject) (x : Nat) :
    (co.setVals x).vals = x := by cases co; rfl

theorem CallObject.param_names_setVals (co : CallObject) (x : Nat) :
    (co.setVals x).param_names = co.param_names := by cases co; rfl

/-- The argument-binding loop fails by indexing `param_names[i]` out of
range as soon as it runs past the formals (or earlier, at a dangling
store address). -/
theorem bindParams_overflow (addr : Nat) (names : List String) :
    ∀ (args : List Value) (i : Nat) (heap : List ObjMap),
      i ≤ names.length → names.length < i + args.length →
      bindParams heap addr names args i = none := by
  intro args
  induction args with
  | nil =>
    intro i heap hle hlt
    simp at hlt
    omega
  | cons a args ih =>
    intro i heap hle hlt
    by_cases hi : i < names.length
    · have hnm : names[i]? = some names[i] := List.getElem?_eq_getElem hi
      by_cases haddr : addr < heap.length
      · have hm : hget heap addr = some heap[addr] :=
          List.getElem?_eq_getElem haddr
        have hs : hset heap addr (minsert heap[addr] names[i] a) =
            some (heap.set addr (minsert heap[addr] names[i] a)) := by
          simp [hset, haddr]
        rw [bindParams, hnm, hm]
        simp only [Option.bind_eq_bind, Option.some_bind]
        rw [hs]
        simp only [Option.some_bind]
        exact ih (i + 1) _ hi (by simp at hlt ⊢; omega)
      · have hm : hget heap addr = none := List.getElem?_eq_none (by omega)
        rw [bindParams, hnm, hm]
        rfl
    · have : names[i]? = none := List.getElem?_eq_none (by omega)
      rw [bindParams, this]
      rfl

/-- C10: for both `call` and `construct` of a user Function whose supplied
`argc` exceeds the number of formal parameter names in the captured frame
template (with the arguments actually on the stack), the binding loop
indexes `param_names` out of range and the interpreter aborts (`none`):
the extra arguments are never bound to names and never silently
dropped. -/
theorem call_construct_excess_args_abort :
    (∀ (builtins : BuiltinFn) (run : VMState → Option VMState) (vm : VMState)
       (dst obj argc : Nat) (co : CallObject) (rest : List Value),
       fetch32 vm.insts (vm.pc + 1) = some argc →
       vm.stack = .Function dst obj co :: rest →
       argc ≤ rest.length →
       co.param_names.length < argc →
       call builtins run vm = none) ∧
    (∀ (builtins : BuiltinFn) (run : VMState → Option VMState) (vm : VMState)
       (dst obj argc : Nat) (co : CallObject) (rest : List Value),
       fetch32 vm.insts (vm.pc + 1) = some argc →
       vm.stack = .Function dst obj co :: rest →
       argc ≤ rest.length →
       co.param_names.length < argc →
       construct builtins run vm = none) := by
  constructor
  · intro builtins run vm dst obj argc co rest hfetch hstk hargs hparams
    unfold call
    rw [hfetch, hstk]
    simp only [Option.bind_eq_bind, Option.some_bind]
    unfold callLoop
    have hlen : ¬argc > rest.length := by omega
    rw [if_neg hlen]
    simp only [popN, if_pos hargs, Option.bind_eq_bind, Option.some_bind,
      CallObject.vals_setVals, CallObject.param_names_setVals]
    rw [bindParams_overflow _ _ _ 0 _ (Nat.zero_le _)
      (by simp [Nat.min_eq_left hargs]; omega)]
    rfl
  · intro builtins run vm dst obj argc co rest hfetch hstk hargs hparams
    unfold construct
    rw [hfetch, hstk]
    simp only [Option.bind_eq_bind, Option.some_bind]
    unfold constructLoop
    have hlen : ¬argc > rest.length := by omega
    rw [if_neg hlen]
    cases hm : hget (vm.objHeap) obj with
    | none => simp [hm]
    | some m =>
      simp only [hm, Option.bind_eq_bind, Option.some_bind, popN,
        if_pos hargs]
      rw [bindParams_overflow _ _ _ 0 _ (Nat.zero_le _)
        (by simp [Nat.min_eq_left hargs]; omega)]
      rfl

/-- Witness for `call_construct_excess_args_abort`: calling and
constructing a zero-parameter function with one argument aborts. -/
theorem call_construct_excess_args_abort_witness :
    call (fun _ _ _ => none) some
      { insts := [38, 1, 0, 0, 0],
        stack := [.Function 9 1 (.mk 0 [] none none), .Number 3],
        objHeap := [[], []] } = none ∧
    construct (fun _ _ _ => none) some
      { insts := [2, 1, 0, 0, 0],
        stack := [.Function 9 1 (.mk 0 [] none none), .Number 3],
        objHeap := [[], []] } = none :=
  ⟨call_construct_excess_args_abort.1 _ _ _ 9 1 1 (.mk 0 [] none none)
      [.Number 3] rfl rfl (by decide) (by decide),
   call_construct_excess_args_abort.2 _ _ _ 9 1 1 (.mk 0 [] none none)
      [.Number 3] rfl rfl (by decide) (by decide)⟩

/-! ## C1 — calling a non-callable value -/

/-- On a callee whose core is not callable, the `call` loop prints the
diagnostic and breaks; the VM state is otherwise untouched. -/
theorem callLoop_not_callable (builtins : BuiltinFn)
    (run : VMState → Option VMState) (vm : VMState) (argc : Nat) :
    ∀ (callee : Value) (this? : Option Value),
      notCallable (coreCallee callee) = true →
      callLoop builtins run vm argc this? callee =
        some { vm with output := vm.output ++ [⟨"Call: err", coreCallee callee, vm.pc⟩] } := by
  intro callee
  induction callee with
  | NeedThis v ih =>
    intro this? h
    rw [callLoop]
    exact ih this? (by simpa [coreCallee] using h)
  | WithThis f t ihf iht =>
    intro this? h
    rw [callLoop]
    exact ihf (some t) (by simpa [coreCallee] using h)
  | Function e o co => intro this? h; simp [notCallable, coreCallee] at h
  | BuiltinFunction i => intro this? h; simp [notCallable, coreCallee] at h
  | Undefined => intro this? h; rfl
  | Bool b => intro this? h; rfl
  | Number n => intro this? h; rfl
  | String s => intro this? h; rfl
  | Object a => intro this? h; rfl
  | Array a => intro this? h; rfl
  | Arguments => intro this? h; rfl

/-- Same for the `construct` loop (whose diagnostic is spelled
`Constract: err`). -/
theorem constructLoop_not_callable (builtins : BuiltinFn)
    (run : VMState → Option VMState) (vm : VMState) (argc : Nat) :
    ∀ (callee : Value),
      notCallable (coreCallee callee) = true →
      constructLoop builtins run vm argc callee =
        some { vm with output := vm.output ++ [⟨"Constract: err", coreCallee callee, vm.pc⟩] } := by
  intro callee
  induction callee with
  | NeedThis v ih =>
    intro h
    rw [constructLoop]
    exact ih (by simpa [coreCallee] using h)
  | WithThis f t ihf iht =>
    intro h
    rw [constructLoop]
    exact ihf (by simpa [coreCallee] using h)
  | Function e o co => intro h; simp [notCallable, coreCallee] at h
  | BuiltinFunction i => intro h; simp [notCallable, coreCallee] at h
  | Undefined => intro h; rfl
  | Bool b => intro h; rfl
  | Number n => intro h; rfl
  | String s => intro h; rfl
  | Object a => intro h; rfl
  | Array a => intro h; rfl
  | Arguments => intro h; rfl

/-- C1 (amended): executing `call` or `construct` with a callee that
(after unwrapping NeedThis/WithThis) is neither a Function nor a
BuiltinFunction emits one diagnostic carrying the failing operation and
the program counter — but it does **not** terminate the program: the
opcode completes normally (`some`), the callee is popped, the arguments
stay on the stack, nothing is pushed, and execution continues at the
next instruction. -/
theorem call_construct_non_callable_continues :
    (∀ (builtins : BuiltinFn) (run : VMState → Option VMState)
       (vm : VMState) (argc : Nat) (callee : Value) (rest : List Value),
       fetch32 vm.insts (vm.pc + 1) = some argc →
       vm.stack = callee :: rest →
       notCallable (coreCallee callee) = true →
       call builtins run vm =
         some { vm with pc := vm.pc + 5, stack := rest, output := vm.output ++ [⟨"Call: err", coreCallee callee, vm.pc + 5⟩] }) ∧
    (∀ (builtins : BuiltinFn) (run : VMState → Option VMState)
       (vm : VMState) (argc : Nat) (callee : Value) (rest : List Value),
       fetch32 vm.insts (vm.pc + 1) = some argc →
       vm.stack = callee :: rest →
       notCallable (coreCallee callee) = true →
       construct builtins run vm =
         some { vm with pc := vm.pc + 5, stack := rest, output := vm.output ++ [⟨"Constract: err", coreCallee callee, vm.pc + 5⟩] }) := by
  constructor
  · intro builtins run vm argc callee rest hfetch hstk h
    unfold call
    rw [hfetch, hstk]
    simp only [Option.bind_eq_bind, Option.some_bind]
    exact callLoop_not_callable builtins run _ argc callee none h
  · intro builtins run vm argc callee rest hfetch hstk h
    unfold construct
    rw [hfetch, hstk]
    simp only [Option.bind_eq_bind, Option.some_bind]
    exact constructLoop_not_callable builtins run _ argc callee h

/-- Witness for `call_construct_non_callable_continues`: calling a
`WithThis`-wrapped Undefined and constructing a Number both print and
continue. -/
theorem call_construct_non_callable_continues_witness :
    call (fun _ _ _ => none) some
      { insts := [38, 0, 0, 0, 0],
        stack := [.WithThis .Undefined (.Number 1)] } =
      some { insts := [38, 0, 0, 0, 0], pc := 5, stack := [], output := [⟨"Call: err", .Undefined, 5⟩] } ∧
    construct (fun _ _ _ => none) some
      { insts := [2, 0, 0, 0, 0], stack := [.Number 7] } =
      some { insts := [2, 0, 0, 0, 0], pc := 5, stack := [], output := [⟨"Constract: err", .Number 7, 5⟩] } :=
  ⟨call_construct_non_callable_continues.1 _ _ _ 0
      (.WithThis .Undefined (.Number 1)) [] rfl rfl rfl,
   call_construct_non_callable_continues.2 _ _ _ 0 (.Number 7) [] rfl rfl rfl⟩

/-- C1 (counterexample): a full run of the program
`push_int8 5; call 0; push_true; end`.  The call fails (callee `Number 5`
is not callable) and the diagnostic is emitted with the pc — but the
program is *not* terminated: the following `push_true` executes (the
final stack holds `Bool true`) and the run ends at `end`.  This refutes
"no further bytecode of the program is executed after the failing
instruction". -/
theorem call_err_then_next_opcode_runs :
    do_run (fun _ _ _ => none) 5 { insts := [5, 5, 38, 0, 0, 0, 0, 8, 0] } =
      some { insts := [5, 5, 38, 0, 0, 0, 0, 8, 0], pc := 8,
             stack := [.Bool true],
             output := [⟨"Call: err", .Number ((5 : Nat) : ℚ), 7⟩] } := by
  rfl

/-! ## C7 — `construct` versus `call` -/

/-- C7 (counterexample): the same zero-argument function (body
`push_int8 7; return`) invoked over a caller stack holding `Number 9`.
Through `call` the caller's stack survives: the run ends with
`[7, 9]`.  Through `construct` it does not: because `construct` pushes
its history frame `(0, 0, 0, pc)` *before* popping the arguments — with
saved stack pointer 0 instead of `call`'s `stack.len()` — the
constructor's `return` drains the caller's entire evaluation stack and
the run ends with just `[Object 3]`.  Were `construct` "identical to
`call` except (a) and (b)" as claimed, both final stacks would have the
same length. -/
theorem construct_wipes_caller_stack :
    (do_run (fun _ _ _ => none) 10
      { insts := [5, 9, 9, 0, 0, 0, 0, 38, 0, 0, 0, 0, 0, 5, 7, 39],
        constValues := [.Function 13 1 (.mk 0 [] none none)],
        objHeap := [[], [("prototype", .Object 2)], []] } =
      some { insts := [5, 9, 9, 0, 0, 0, 0, 38, 0, 0, 0, 0, 0, 5, 7, 39],
             constValues := [.Function 13 1 (.mk 0 [] none none)],
             objHeap := [[], [("prototype", .Object 2)], [], []],
             pc := 12,
             stack := [.Number ((7 : Nat) : ℚ), .Number ((9 : Nat) : ℚ)] }) ∧
    (do_run (fun _ _ _ => none) 10
      { insts := [5, 9, 9, 0, 0, 0, 0, 2, 0, 0, 0, 0, 0, 5, 7, 39],
        constValues := [.Function 13 1 (.mk 0 [] none none)],
        objHeap := [[], [("prototype", .Object 2)], []] } =
      some { insts := [5, 9, 9, 0, 0, 0, 0, 2, 0, 0, 0, 0, 0, 5, 7, 39],
             constValues := [.Function 13 1 (.mk 0 [] none none)],
             objHeap := [[], [("prototype", .Object 2)], [],
                         [("__proto__", .Object 2)]],
             pc := 12,
             stack := [.Object 3] }) ∧
    ([Value.Object 3].length ≠
      [Value.Number ((7 : Nat) : ℚ), Value.Number ((9 : Nat) : ℚ)].length) := by
  refine ⟨rfl, rfl, by decide⟩

/-- C7 (amended): for a Function callee, `construct` behaves like `call`
with exactly these four differences, exhibited for every caller-stack
value `b`, argument `a`, template bindings map `m0`, prototype value
`protoV`, body constant `k` and host table (callee
`function (x) { push_int8 k; return }`): (a) a fresh object whose
`__proto__` is the callee's `prototype` property is allocated (at address
2) and bound as `this`; (b) the non-object result `Number k` is replaced
by that fresh object; (c) `construct` pushes its history frame before
popping the arguments, with saved stack pointer 0 instead of `call`'s
post-pop `stack.len()`, so the constructor's return drains the caller's
entire evaluation stack: the final stack is `[Object 2]` — the caller's
`b` is gone — versus `call`'s `[Number k, b]`; and (d) `construct` does
not replace the template's bindings map: the argument is inserted into
the shared template map `m0` at its old address 0, while `call`
allocates a fresh bindings map at address 2 and leaves `m0` intact. -/
theorem construct_vs_call_differences (builtins : BuiltinFn)
    (b a protoV : Value) (m0 : ObjMap) (k : Nat) :
    call builtins (do_run builtins 2)
      { stack := [.Function 5 1 (.mk 0 ["x"] none none), a, b],
        insts := [38, 1, 0, 0, 0, 5, k, 39],
        objHeap := [m0, [("prototype", protoV)]] } =
      some { stack := [.Number (k : ℚ), b], pc := 5,
             insts := [38, 1, 0, 0, 0, 5, k, 39],
             objHeap := [m0, [("prototype", protoV)], [("x", a)]] } ∧
    construct builtins (do_run builtins 2)
      { stack := [.Function 5 1 (.mk 0 ["x"] none none), a, b],
        insts := [38, 1, 0, 0, 0, 5, k, 39],
        objHeap := [m0, [("prototype", protoV)]] } =
      some { stack := [.Object 2], pc := 5,
             insts := [38, 1, 0, 0, 0, 5, k, 39],
             objHeap := [minsert m0 "x" a, [("prototype", protoV)],
                         [("__proto__", protoV)]] } := by
  constructor
  · simp only [call]
    norm_num [fetch32, fetch8, show Int.toNat 4 = 4 from rfl,
      show Int.toNat 3 = 3 from rfl, show Int.toNat 2 = 2 from rfl,
      show Int.toNat 1 = 1 from rfl,
      List.getElem?_cons_succ, List.getElem?_cons_zero,
      List.getElem_cons_succ, List.getElem_cons_zero]
    simp only [callLoop, CallObject.vals_setVals, CallObject.param_names_setVals]
    norm_num [popN, bindParams, hget, hset, minsert]
    simp only [CallObject.param_names, CallObject.setVals,
      List.getElem?_cons_zero, Option.some_bind]
    rw [show (2 : Nat) = 1 + 1 from rfl]
    rw [do_run]
    norm_num [fetch8, show Int.toNat 5 = 5 from rfl,
      List.getElem?_cons_succ, List.getElem?_cons_zero]
    simp only [execOp]
    norm_num [push_int8, fetch8, show Int.toNat 6 = 6 from rfl,
      List.getElem?_cons_succ, List.getElem?_cons_zero, VMInst.RETURN, VMInst.END]
    rw [show (1 : Nat) = 0 + 1 from rfl]
    rw [do_run]
    norm_num [fetch8, show Int.toNat 7 = 7 from rfl,
      List.getElem?_cons_succ, List.getElem?_cons_zero]
    simp only [execOp]
    norm_num [return_, VMInst.RETURN, VMInst.END]
  · simp only [construct]
    norm_num [fetch32, fetch8, show Int.toNat 4 = 4 from rfl,
      show Int.toNat 3 = 3 from rfl, show Int.toNat 2 = 2 from rfl,
      show Int.toNat 1 = 1 from rfl,
      List.getElem?_cons_succ, List.getElem?_cons_zero,
      List.getElem_cons_succ, List.getElem_cons_zero]
    simp only [constructLoop, CallObject.vals, CallObject.param_names,
      CallObject.setThis]
    norm_num [popN, bindParams, hget, hset, minsert, mlookup,
      CallObject.param_names, List.getElem?_cons_zero]
    rw [show (2 : Nat) = 1 + 1 from rfl]
    rw [do_run]
    norm_num [fetch8, show Int.toNat 5 = 5 from rfl,
      List.getElem?_cons_succ, List.getElem?_cons_zero]
    simp only [execOp]
    norm_num [push_int8, fetch8, show Int.toNat 6 = 6 from rfl,
      List.getElem?_cons_succ, List.getElem?_cons_zero, VMInst.RETURN, VMInst.END]
    rw [show (1 : Nat) = 0 + 1 from rfl]
    rw [do_run]
    norm_num [fetch8, show Int.toNat 7 = 7 from rfl,
      List.getElem?_cons_succ, List.getElem?_cons_zero]
    simp only [execOp]
    norm_num [return_, VMInst.RETURN, VMInst.END]

/-! ## Analyzer lemmas: frozen error state and `use_this` accumulation -/

theorem runNode_frozen (s : FVState) (n : Node) (h : s.err = true) :
    runNode s n = (s, n) := by
  rw [runNode.eq_def]
  simp [h]

theorem runFnDecl_frozen (s : FVState) (name : CoreString) (ut : Bool)
    (fv : Finset CoreString) (params : List FormalParameter) (body : List Node)
    (h : s.err = true) :
    runFnDecl s name ut fv params body = (s, .FunctionDecl name ut fv params body) := by
  rw [runFnDecl.eq_def]
  simp [h]

theorem runNodes_frozen (s : FVState) (l : List Node) (h : s.err = true) :
    runNodes s l = (s, l) := by
  induction l with
  | nil => simp [runNodes]
  | cons n ns ih => rw [runNodes]; simp [runNode_frozen s n h, ih]

theorem runNonDecls_frozen (s : FVState) (l : List Node)
    (renames : List (Option CoreString)) (h : s.err = true) :
    (runNonDecls s l renames).1 = s := by
  induction l generalizing renames with
  | nil => simp [runNonDecls]
  | cons n ns ih => cases n <;> (rw [runNonDecls.eq_def]; simp [runNode_frozen _ _ h, ih])

theorem runDecls_frozen (s : FVState) (l : List Node)
    (renames : List (Option CoreString)) (processed : List Node) (h : s.err = true) :
    (runDecls s l renames processed).1 = s := by
  induction l generalizing renames processed with
  | nil => simp [runDecls]
  | cons n ns ih => cases n <;> (rw [runDecls.eq_def]; simp [runFnDecl_frozen, h, ih])

theorem err_of_runNode (s : FVState) (n : Node)
    (h : (runNode s n).1.err = false) : s.err = false := by
  cases hs : s.err
  · rfl
  · rw [runNode_frozen s n hs] at h; simp [hs] at h

theorem err_of_runFnDecl (s : FVState) (name : CoreString) (ut : Bool)
    (fv : Finset CoreString) (params : List FormalParameter) (body : List Node)
    (h : (runFnDecl s name ut fv params body).1.err = false) : s.err = false := by
  cases hs : s.err
  · rfl
  · rw [runFnDecl_frozen s name ut fv params body hs] at h; simp [hs] at h

theorem err_of_runNodes (s : FVState) (l : List Node)
    (h : (runNodes s l).1.err = false) : s.err = false := by
  cases hs : s.err
  · rfl
  · rw [runNodes_frozen s l hs] at h; simp [hs] at h

theorem err_of_runNonDecls (s : FVState) (l : List Node)
    (renames : List (Option CoreString))
    (h : (runNonDecls s l renames).1.err = false) : s.err = false := by
  cases hs : s.err
  · rfl
  · rw [runNonDecls_frozen s l renames hs] at h; simp [hs] at h

theorem err_of_runDecls (s : FVState) (l : List Node)
    (renames : List (Option CoreString)) (processed : List Node)
    (h : (runDecls s l renames processed).1.err = false) : s.err = false := by
  cases hs : s.err
  · rfl
  · rw [runDecls_frozen s l renames processed hs] at h; simp [hs] at h

theorem hoistDecls_useThis (s : FVState) (l : List Node) :
    (hoistDecls s l).1.use_this = s.use_this ∧ (hoistDecls s l).1.err = s.err := by
  induction l generalizing s with
  | nil => simp [hoistDecls]
  | cons n ns ih => cases n <;> simp [hoistDecls, ih, apply_ite]

theorem containsThis_partition (l : List Node) :
    (containsThisNonDecls l || containsThisDecls l) = containsThisList l := by
  induction l with
  | nil => rfl
  | cons n ns ih =>
    cases n <;>
      simp [containsThisNonDecls, containsThisDecls, containsThisList, containsThis,
        Bool.or_assoc, Bool.or_comm, Bool.or_left_comm, ← ih]


set_option maxHeartbeats 1000000

mutual

theorem runNode_useThis (s : FVState) (n : Node)
    (h : (runNode s n).1.err = false) :
    (runNode s n).1.use_this = (s.use_this || containsThis n) := by
  have hs : s.err = false := err_of_runNode _ _ h
  cases n with
  | StatementList ns =>
    rw [runNode.eq_def] at h ⊢
    simp only [hs, Bool.false_eq_true, if_false] at h ⊢
    rw [runNodes_useThis _ ns h]
    simp [containsThis]
  | FunctionDecl nm ut fv ps bd =>
    rw [runNode.eq_def] at h ⊢
    simp only [hs, Bool.false_eq_true, if_false] at h ⊢
    rw [runFnDecl_useThis _ nm ut fv ps bd h]
    simp [containsThis]
  | Call c args =>
    rw [runNode.eq_def] at h ⊢
    simp only [hs, Bool.false_eq_true, if_false] at h ⊢
    have h1 : (runNode s c).1.err = false := err_of_runNodes _ _ h
    rw [runNodes_useThis _ args h, runNode_useThis _ c h1]
    simp [containsThis, Bool.or_assoc]
  | VarDecl nm init =>
    cases init with
    | some i =>
      rw [runNode.eq_def] at h ⊢
      simp only [hs, Bool.false_eq_true, if_false] at h ⊢
      rw [runNode_useThis _ i h]
      simp [containsThis]
    | none =>
      rw [runNode.eq_def]
      simp [hs, containsThis]
  | Return val =>
    cases val with
    | some v =>
      rw [runNode.eq_def] at h ⊢
      simp only [hs, Bool.false_eq_true, if_false] at h ⊢
      rw [runNode_useThis _ v h]
      simp [containsThis]
    | none =>
      rw [runNode.eq_def]
      simp [hs, containsThis]
  | Member p mem =>
    rw [runNode.eq_def] at h ⊢
    simp only [hs, Bool.false_eq_true, if_false] at h ⊢
    rw [runNode_useThis _ p h]
    simp [containsThis]
  | This =>
    rw [runNode.eq_def]
    simp [hs, containsThis]
  | Identifier nm =>
    rw [runNode.eq_def]
    simp [hs, containsThis, apply_ite]
  | If c t e =>
    rw [runNode.eq_def] at h ⊢
    simp only [hs, Bool.false_eq_true, if_false] at h ⊢
    have h2 : (runNode (runNode s c).1 t).1.err = false := err_of_runNode _ _ h
    have h1 : (runNode s c).1.err = false := err_of_runNode _ _ h2
    rw [runNode_useThis _ e h, runNode_useThis _ t h2, runNode_useThis _ c h1]
    simp [containsThis, Bool.or_assoc]
  | While c b =>
    rw [runNode.eq_def] at h ⊢
    simp only [hs, Bool.false_eq_true, if_false] at h ⊢
    have h1 : (runNode s c).1.err = false := err_of_runNode _ _ h
    rw [runNode_useThis _ b h, runNode_useThis _ c h1]
    simp [containsThis, Bool.or_assoc]
  | Assign dst src =>
    cases dst
    case Identifier nm =>
      rw [runNode.eq_def] at h ⊢
      simp only [hs, Bool.false_eq_true, if_false] at h ⊢
      rw [runNode_useThis _ src h]
      split_ifs <;> simp [containsThis]
    case Member p mem =>
      rw [runNode.eq_def] at h ⊢
      simp only [hs, Bool.false_eq_true, if_false] at h ⊢
      have h1 : (runNode s p).1.err = false := err_of_runNode _ _ h
      rw [runNode_useThis _ src h, runNode_useThis _ p h1]
      simp [containsThis, Bool.or_assoc]
    all_goals
      rw [runNode.eq_def] at h
      simp [hs] at h
  | UnaryOp e =>
    rw [runNode.eq_def] at h ⊢
    simp only [hs, Bool.false_eq_true, if_false] at h ⊢
    rw [runNode_useThis _ e h]
    simp [containsThis]
  | BinaryOp lh rh =>
    rw [runNode.eq_def] at h ⊢
    simp only [hs, Bool.false_eq_true, if_false] at h ⊢
    have h1 : (runNode s lh).1.err = false := err_of_runNode _ _ h
    rw [runNode_useThis _ rh h, runNode_useThis _ lh h1]
    simp [containsThis, Bool.or_assoc]
  | TernaryOp c t e =>
    rw [runNode.eq_def] at h ⊢
    simp only [hs, Bool.false_eq_true, if_false] at h ⊢
    have h2 : (runNode (runNode s c).1 t).1.err = false := err_of_runNode _ _ h
    have h1 : (runNode s c).1.err = false := err_of_runNode _ _ h2
    rw [runNode_useThis _ e h, runNode_useThis _ t h2, runNode_useThis _ c h1]
    simp [containsThis, Bool.or_assoc]
  | Number q =>
    rw [runNode.eq_def]
    simp [hs, containsThis]
  | Str st =>
    rw [runNode.eq_def]
    simp [hs, containsThis]
termination_by (sizeOf n, 2)

theorem runFnDecl_useThis (s : FVState) (name : CoreString) (ut : Bool)
    (fv : Finset CoreString) (params : List FormalParameter) (body : List Node)
    (h : (runFnDecl s name ut fv params body).1.err = false) :
    (runFnDecl s name ut fv params body).1.use_this
      = (s.use_this || containsThisList body) := by
  have hs : s.err = false := err_of_runFnDecl _ _ _ _ _ _ h
  rw [runFnDecl.eq_def] at h ⊢
  simp only [hs, Bool.false_eq_true, if_false] at h ⊢
  have h2 := err_of_runDecls _ _ _ _ h
  have h3 := err_of_runNonDecls _ _ _ h2
  rw [runDecls_useThis _ body _ _ h, runNonDecls_useThis _ body _ h2,
      (hoistDecls_useThis _ body).1]
  rw [Bool.or_assoc, containsThis_partition]
termination_by (sizeOf body, 1)

theorem runNodes_useThis (s : FVState) (l : List Node)
    (h : (runNodes s l).1.err = false) :
    (runNodes s l).1.use_this = (s.use_this || containsThisList l) := by
  cases l with
  | nil => simp [runNodes, containsThisList]
  | cons n ns =>
    rw [runNodes.eq_def] at h ⊢
    simp only [] at h ⊢
    have h1 : (runNode s n).1.err = false := err_of_runNodes _ _ h
    rw [runNodes_useThis _ ns h, runNode_useThis _ n h1]
    simp [containsThisList, Bool.or_assoc]
termination_by (sizeOf l, 2)

theorem runNonDecls_useThis (s : FVState) (l : List Node)
    (renames : List (Option CoreString))
    (h : (runNonDecls s l renames).1.err = false) :
    (runNonDecls s l renames).1.use_this = (s.use_this || containsThisNonDecls l) := by
  cases l with
  | nil => simp [runNonDecls, containsThisNonDecls]
  | cons n ns =>
    cases n
    case FunctionDecl nm ut fv ps bd =>
      rw [runNonDecls.eq_def] at h ⊢
      simp only [] at h ⊢
      rw [runNonDecls_useThis _ ns renames.tail h]
      simp [containsThisNonDecls]
    all_goals
      rw [runNonDecls.eq_def] at h ⊢
      simp only [] at h ⊢
      have h1 := err_of_runNonDecls _ _ _ h
      rw [runNonDecls_useThis _ ns renames.tail h, runNode_useThis _ _ h1]
      simp [containsThisNonDecls, containsThis, Bool.or_assoc]
termination_by (sizeOf l, 0)
decreasing_by all_goals (subst_vars; decreasing_tactic)

theorem runDecls_useThis (s : FVState) (l : List Node)
    (renames : List (Option CoreString)) (processed : List Node)
    (h : (runDecls s l renames processed).1.err = false) :
    (runDecls s l renames processed).1.use_this = (s.use_this || containsThisDecls l) := by
  cases l with
  | nil => simp [runDecls, containsThisDecls]
  | cons n ns =>
    cases n
    case FunctionDecl nm ut fv ps bd =>
      rw [runDecls.eq_def] at h ⊢
      simp only [] at h ⊢
      have h1 := err_of_runDecls _ _ _ _ h
      rw [runDecls_useThis _ ns renames.tail processed.tail h,
          runFnDecl_useThis _ _ ut fv ps bd h1]
      simp [containsThisDecls, Bool.or_assoc]
    all_goals
      rw [runDecls.eq_def] at h ⊢
      simp only [] at h ⊢
      rw [runDecls_useThis _ ns renames.tail processed.tail h]
      simp [containsThisDecls]
termination_by (sizeOf l, 0)
decreasing_by all_goals (subst_vars; decreasing_tactic)

end

set_option maxHeartbeats 200000

theorem runFnDecl_utAnn (s : FVState) (name : CoreString) (ut : Bool)
    (fv : Finset CoreString) (params : List FormalParameter) (body : List Node)
    (hs : s.err = false) :
    utAnnOf (runFnDecl s name ut fv params body).2
      = (runFnDecl s name ut fv params body).1.use_this := by
  rw [runFnDecl.eq_def]
  simp [hs, utAnnOf]

/-- **C6 (amended).** The `use_this` slot the analyzer writes on a
function declaration is not a property of that function alone: whenever
the analysis completes without a panic, the annotation equals the flag
already accumulated when the declaration is entered, OR-ed with whether
`this` appears textually anywhere in the body — nested inner function
bodies included.  In particular a `this` occurring only inside a nested
inner function still sets the enclosing function's annotation. -/
theorem use_this_annotation_accumulated (s : FVState) (name : CoreString) (ut : Bool)
    (fv : Finset CoreString) (params : List FormalParameter) (body : List Node)
    (h : (runFnDecl s name ut fv params body).1.err = false) :
    utAnnOf (runFnDecl s name ut fv params body).2
      = (s.use_this || containsThisList body) := by
  rw [runFnDecl_utAnn s name ut fv params body (err_of_runFnDecl _ _ _ _ _ _ h)]
  exact runFnDecl_useThis s name ut fv params body h

theorem use_this_annotation_accumulated_witness :
    (runFnDecl FreeVariableFinder.new "f" false ∅ [] [.This]).1.err = false ∧
    utAnnOf (runFnDecl FreeVariableFinder.new "f" false ∅ [] [.This]).2
      = (FreeVariableFinder.new.use_this || containsThisList [.This]) := by
  have h : (runFnDecl FreeVariableFinder.new "f" false ∅ [] [.This]).1.err = false := by
    simp [runFnDecl, FreeVariableFinder.new, hoistDecls, runNonDecls, runDecls, runNode,
      v0, vset0, vlast, vsetLast, mglast, mgsetLast, fcontains]
  exact And.intro h (use_this_annotation_accumulated _ _ _ _ _ _ h)

/-- **C6 counterexample.** The program `function f() { function h() { this } }`:
`this` appears only inside the nested inner function `h`, yet the analyzer
annotates the outer `f` with `use_this = true` (the flag set while analysing
`h` is still set when `f`'s annotation is written).  The second conjunct
records that no statement of `f`'s body outside a nested function mentions
`this`. -/
theorem use_this_leaks_to_outer_function :
    ((run_toplevel FreeVariableFinder.new
        [.FunctionDecl "f" false ∅ []
            [.FunctionDecl "h" false ∅ [] [.This]]]).2.map utAnnOf = [true])
    ∧ containsThisNonDecls [.FunctionDecl "h" false ∅ [] [.This]] = false := by
  constructor
  · simp [run_toplevel, toplevelPassA, toplevelPassB, runNode, runFnDecl,
      hoistDecls, runNonDecls, runDecls, runNodes, FreeVariableFinder.new, utAnnOf,
      v0, vset0, vlast, vsetLast, mglast, mgsetLast, fcontains]
  · rfl


/-! ## Scope-stack and PlainStep algebra -/

theorem vlast_vsetLast (l : List (Finset String)) (x : Finset String) :
    vlast (l.dropLast ++ [x]) = x := by
  simp [vlast]

theorem v0_vsetLast (l : List (Finset String)) (hl : 2 ≤ l.length) (x : Finset String) :
    v0 (l.dropLast ++ [x]) = v0 l := by
  cases l with
  | nil => simp at hl
  | cons a t =>
    cases t with
    | nil => simp at hl
    | cons b t2 => simp [v0]

theorem length_vsetLast (l : List (Finset String)) (hl : 1 ≤ l.length) (x : Finset String) :
    (l.dropLast ++ [x]).length = l.length := by
  simp [List.length_dropLast]
  omega

theorem dropLast_concat_vlast (l : List (Finset String)) (hl : 1 ≤ l.length) :
    l.dropLast ++ [vlast l] = l := by
  induction l with
  | nil => simp at hl
  | cons a t ih =>
    cases t with
    | nil => simp [vlast]
    | cons b t2 =>
      have := ih (by simp)
      simp only [vlast, List.getLastD_eq_getLast?] at this ⊢
      simp [List.dropLast_cons_of_ne_nil, this]

theorem mglast_concat (l : List (List (String × String))) (m : List (String × String)) :
    mglast (l ++ [m]) = m := by
  simp [mglast]

theorem v0_concat (l : List (Finset String)) (hl : 1 ≤ l.length) (x : Finset String) :
    v0 (l ++ [x]) = v0 l := by
  cases l with
  | nil => simp at hl
  | cons a t => simp [v0]

theorem plainStep_len {s s2 : FVState} {U D : Finset CoreString}
    (h : PlainStep s s2 U D) (hl : 2 ≤ s.varmap.length) : 2 ≤ s2.varmap.length := by
  rw [h.pvarmap, length_vsetLast _ (by omega)]
  exact hl

theorem plainStep_of_eq (s s2 : FVState)
    (he : s2.err = false) (hmg : s2.mangled_function_name = s.mangled_function_name)
    (hv : s2.varmap = s.varmap) (hc : s2.cur_fv = s.cur_fv)
    (hl : 1 ≤ s.varmap.length) : PlainStep s s2 ∅ ∅ := by
  refine ⟨he, hmg, ?_, ?_, ?_, ?_⟩
  · rw [hv, Finset.union_empty, dropLast_concat_vlast _ hl]
  · rw [hc]
  · rw [hc]
    exact Finset.subset_union_left
  · intro u hu
    simp at hu

theorem plainStep_comp {s1 s2 s3 : FVState} {U1 D1 U2 D2 : Finset CoreString}
    (hl : 2 ≤ s1.varmap.length)
    (h1 : PlainStep s1 s2 U1 D1) (h2 : PlainStep s2 s3 U2 D2) :
    PlainStep s1 s3 (U1 ∪ U2) (D1 ∪ D2) := by
  have hv0 : v0 s2.varmap = v0 s1.varmap := by
    rw [h1.pvarmap]
    exact v0_vsetLast _ hl _
  have hvl2 : vlast s2.varmap = vlast s1.varmap ∪ D1 := by
    rw [h1.pvarmap]
    exact vlast_vsetLast _ _
  have hvl3 : vlast s3.varmap = (vlast s1.varmap ∪ D1) ∪ D2 := by
    rw [h2.pvarmap, vlast_vsetLast, hvl2]
  refine ⟨h2.perr, h2.pmangled.trans h1.pmangled, ?_, h1.pmono.trans h2.pmono, ?_, ?_⟩
  · rw [h2.pvarmap, h1.pvarmap, List.dropLast_concat, vlast_vsetLast, Finset.union_assoc]
  · intro u hu
    rcases Finset.mem_union.mp (h2.pupper hu) with h | h
    · rcases Finset.mem_union.mp (h1.pupper h) with h' | h'
      · exact Finset.mem_union_left _ h'
      · rcases Finset.mem_sdiff.mp h' with ⟨ha, hb⟩
        exact Finset.mem_union_right _
          (Finset.mem_sdiff.mpr ⟨Finset.mem_union_left _ ha, hb⟩)
    · rcases Finset.mem_sdiff.mp h with ⟨ha, hb⟩
      rw [hv0] at hb
      exact Finset.mem_union_right _
        (Finset.mem_sdiff.mpr ⟨Finset.mem_union_right _ ha, hb⟩)
  · intro u hu hg hlast
    rcases Finset.mem_union.mp hu with h | h
    · have hnl2 : u ∉ vlast s2.varmap := by
        intro hx
        apply hlast
        rw [hvl3]
        rw [hvl2] at hx
        exact Finset.mem_union_left _ hx
      exact h2.pmono (h1.pcollect u h hg hnl2)
    · exact h2.pcollect u h (by rw [hv0]; exact hg) hlast

theorem plainStep_congr {s s2 : FVState} {U D U2 D2 : Finset CoreString}
    (h : PlainStep s s2 U D) (hU : U = U2) (hD : D = D2) : PlainStep s s2 U2 D2 := by
  rw [← hU, ← hD]
  exact h


theorem hoistDecls_plain (s : FVState) (l : List Node) (hp : plainNodeList l = true) :
    (hoistDecls s l).1 = s := by
  induction l with
  | nil => simp [hoistDecls]
  | cons n ns ih =>
    rw [plainNodeList, Bool.and_eq_true] at hp
    cases n
    case FunctionDecl nm ut fv ps bd => simp [plainNode] at hp
    all_goals (rw [hoistDecls.eq_def]; simp [ih hp.2])

theorem runNonDecls_plain_state (s : FVState) (l : List Node)
    (renames : List (Option CoreString)) (hp : plainNodeList l = true) :
    (runNonDecls s l renames).1 = (runNodes s l).1 := by
  induction l generalizing s renames with
  | nil => simp [runNonDecls, runNodes]
  | cons n ns ih =>
    rw [plainNodeList, Bool.and_eq_true] at hp
    cases n
    case FunctionDecl nm ut fv ps bd => simp [plainNode] at hp
    all_goals (rw [runNonDecls.eq_def, runNodes.eq_def]; simp only []; exact ih _ _ hp.2)

theorem runDecls_plain_state (s : FVState) (l : List Node)
    (renames : List (Option CoreString)) (processed : List Node)
    (hp : plainNodeList l = true) :
    (runDecls s l renames processed).1 = s := by
  induction l generalizing renames processed with
  | nil => simp [runDecls]
  | cons n ns ih =>
    rw [plainNodeList, Bool.and_eq_true] at hp
    cases n
    case FunctionDecl nm ut fv ps bd => simp [plainNode] at hp
    all_goals (rw [runDecls.eq_def]; simp only []; exact ih _ _ hp.2)


theorem plainStep_mglast {s s2 : FVState} {U D : Finset CoreString}
    (h : PlainStep s s2 U D) (hmg : mglast s.mangled_function_name = []) :
    mglast s2.mangled_function_name = [] := by
  rw [h.pmangled]
  exact hmg

theorem plainStep_declare (s : FVState) (nm : CoreString)
    (hs : s.err = false) (hl : 1 ≤ s.varmap.length) :
    PlainStep s { s with varmap := vsetLast s.varmap (insert nm (vlast s.varmap)) }
      ∅ (insert nm ∅) := by
  refine ⟨hs, rfl, ?_, subset_refl _, Finset.subset_union_left, ?_⟩
  · have hins : vlast s.varmap ∪ {nm} = insert nm (vlast s.varmap) := by
      ext x
      simp [or_comm]
    simp [vsetLast, hins]
  · intro u hu
    simp at hu

theorem plainStep_identifier (s : FVState) (nm : CoreString)
    (hs : s.err = false) (hl : 2 ≤ s.varmap.length) :
    PlainStep s
      (if (!fcontains (v0 s.varmap) nm && !fcontains (vlast s.varmap) nm) = true then
        (if s.varmap.length = 1 then
          { s with varmap := vset0 s.varmap (insert nm (v0 s.varmap)) }
         else { s with cur_fv := insert nm s.cur_fv })
       else s)
      (insert nm ∅) ∅ := by
  cases hfi : (!fcontains (v0 s.varmap) nm && !fcontains (vlast s.varmap) nm) with
  | false =>
    simp only [hfi, Bool.false_eq_true, if_false]
    have hmem : nm ∈ v0 s.varmap ∨ nm ∈ vlast s.varmap := by
      simp [fcontains] at hfi
      tauto
    refine ⟨hs, rfl, ?_, subset_refl _, Finset.subset_union_left, ?_⟩
    · rw [Finset.union_empty, dropLast_concat_vlast _ (by omega)]
    · intro u hu hg hlast
      rcases Finset.mem_insert.mp hu with rfl | h
      · rcases hmem with h | h
        · exact absurd h hg
        · exact absurd h hlast
      · simp at h
  | true =>
    have hne : ¬ s.varmap.length = 1 := by omega
    simp only [hfi, if_true, hne, if_false]
    have hni : nm ∉ v0 s.varmap ∧ nm ∉ vlast s.varmap := by
      simp [fcontains] at hfi
      tauto
    refine ⟨hs, rfl, ?_, Finset.subset_insert _ _, ?_, ?_⟩
    · rw [Finset.union_empty, dropLast_concat_vlast _ (by omega)]
    · intro u hu
      rcases Finset.mem_insert.mp hu with rfl | h
      · exact Finset.mem_union_right _
          (Finset.mem_sdiff.mpr ⟨Finset.mem_insert_self _ _, hni.1⟩)
      · exact Finset.mem_union_left _ h
    · intro u hu hg hlast
      rcases Finset.mem_insert.mp hu with rfl | h
      · exact Finset.mem_insert_self _ _
      · simp at h

mutual

theorem runNode_plain (s : FVState) (n : Node) (hp : plainNode n = true)
    (hs : s.err = false) (hmg : mglast s.mangled_function_name = [])
    (hl : 2 ≤ s.varmap.length) :
    PlainStep s (runNode s n).1 (usesOf n) (declsOf n) := by
  have hs2 : ¬ (s.err = true) := by simp [hs]
  cases n with
  | StatementList ns =>
    rw [plainNode] at hp
    rw [runNode.eq_def, if_neg hs2]
    simp only [usesOf, declsOf]
    exact runNodes_plain s ns hp hs hmg hl
  | FunctionDecl nm ut fv ps bd => simp [plainNode] at hp
  | Call c args =>
    simp only [plainNode, Bool.and_eq_true] at hp
    rw [runNode.eq_def, if_neg hs2]
    simp only [usesOf, declsOf]
    have P1 := runNode_plain s c hp.1 hs hmg hl
    have P2 := runNodes_plain _ args hp.2 P1.perr (plainStep_mglast P1 hmg)
      (plainStep_len P1 hl)
    exact plainStep_comp hl P1 P2
  | VarDecl nm init =>
    cases init with
    | some i =>
      rw [plainNode] at hp
      rw [runNode.eq_def, if_neg hs2]
      simp only [usesOf, declsOf]
      have P0 := plainStep_declare s nm hs (by omega)
      have P1 := runNode_plain _ i hp P0.perr (plainStep_mglast P0 hmg)
        (plainStep_len P0 hl)
      refine plainStep_congr (plainStep_comp hl P0 P1) ?_ ?_
      · simp
      · ext x
        simp
    | none =>
      rw [runNode.eq_def, if_neg hs2]
      simp only [usesOf, declsOf]
      exact plainStep_congr (plainStep_declare s nm hs (by omega)) rfl (by simp)
  | Return val =>
    cases val with
    | some v =>
      rw [plainNode] at hp
      rw [runNode.eq_def, if_neg hs2]
      simp only [usesOf, declsOf]
      exact runNode_plain s v hp hs hmg hl
    | none =>
      rw [runNode.eq_def, if_neg hs2]
      simp only [usesOf, declsOf]
      exact plainStep_of_eq s s hs rfl rfl rfl (by omega)
  | Member p mem =>
    rw [plainNode] at hp
    rw [runNode.eq_def, if_neg hs2]
    simp only [usesOf, declsOf]
    exact runNode_plain s p hp hs hmg hl
  | This =>
    rw [runNode.eq_def, if_neg hs2]
    simp only [usesOf, declsOf]
    exact plainStep_of_eq s _ hs rfl rfl rfl (by omega)
  | Identifier nm =>
    rw [runNode.eq_def, if_neg hs2]
    simp only [usesOf, declsOf]
    cases hg : s.mangled_function_name.getLast? with
    | none =>
      simp only []
      exact plainStep_identifier s nm hs hl
    | some m =>
      have hm : m = [] := by
        have h2 := hmg
        rw [mglast, List.getLastD_eq_getLast?, hg] at h2
        simpa using h2
      subst hm
      simp only [mlookup]
      exact plainStep_identifier s nm hs hl
  | If c t e =>
    simp only [plainNode, Bool.and_eq_true] at hp
    rw [runNode.eq_def, if_neg hs2]
    simp only [usesOf, declsOf]
    have P1 := runNode_plain s c hp.1.1 hs hmg hl
    have P2 := runNode_plain _ t hp.1.2 P1.perr (plainStep_mglast P1 hmg)
      (plainStep_len P1 hl)
    have P3 := runNode_plain _ e hp.2 P2.perr
      (plainStep_mglast P2 (plainStep_mglast P1 hmg))
      (plainStep_len P2 (plainStep_len P1 hl))
    exact plainStep_comp hl (plainStep_comp hl P1 P2) P3
  | While c b =>
    simp only [plainNode, Bool.and_eq_true] at hp
    rw [runNode.eq_def, if_neg hs2]
    simp only [usesOf, declsOf]
    have P1 := runNode_plain s c hp.1 hs hmg hl
    have P2 := runNode_plain _ b hp.2 P1.perr (plainStep_mglast P1 hmg)
      (plainStep_len P1 hl)
    exact plainStep_comp hl P1 P2
  | Assign dst src => simp [plainNode] at hp
  | UnaryOp e =>
    rw [plainNode] at hp
    rw [runNode.eq_def, if_neg hs2]
    simp only [usesOf, declsOf]
    exact runNode_plain s e hp hs hmg hl
  | BinaryOp lh rh =>
    simp only [plainNode, Bool.and_eq_true] at hp
    rw [runNode.eq_def, if_neg hs2]
    simp only [usesOf, declsOf]
    have P1 := runNode_plain s lh hp.1 hs hmg hl
    have P2 := runNode_plain _ rh hp.2 P1.perr (plainStep_mglast P1 hmg)
      (plainStep_len P1 hl)
    exact plainStep_comp hl P1 P2
  | TernaryOp c t e =>
    simp only [plainNode, Bool.and_eq_true] at hp
    rw [runNode.eq_def, if_neg hs2]
    simp only [usesOf, declsOf]
    have P1 := runNode_plain s c hp.1.1 hs hmg hl
    have P2 := runNode_plain _ t hp.1.2 P1.perr (plainStep_mglast P1 hmg)
      (plainStep_len P1 hl)
    have P3 := runNode_plain _ e hp.2 P2.perr
      (plainStep_mglast P2 (plainStep_mglast P1 hmg))
      (plainStep_len P2 (plainStep_len P1 hl))
    exact plainStep_comp hl (plainStep_comp hl P1 P2) P3
  | Number q =>
    rw [runNode.eq_def, if_neg hs2]
    simp only [usesOf, declsOf]
    exact plainStep_of_eq s s hs rfl rfl rfl (by omega)
  | Str st =>
    rw [runNode.eq_def, if_neg hs2]
    simp only [usesOf, declsOf]
    exact plainStep_of_eq s s hs rfl rfl rfl (by omega)
termination_by (sizeOf n, 2)

theorem runNodes_plain (s : FVState) (l : List Node) (hp : plainNodeList l = true)
    (hs : s.err = false) (hmg : mglast s.mangled_function_name = [])
    (hl : 2 ≤ s.varmap.length) :
    PlainStep s (runNodes s l).1 (usesOfList l) (declsOfList l) := by
  cases l with
  | nil =>
    rw [runNodes.eq_def]
    simp only [usesOfList, declsOfList]
    exact plainStep_of_eq s s hs rfl rfl rfl (by omega)
  | cons n ns =>
    simp only [plainNodeList, Bool.and_eq_true] at hp
    rw [runNodes.eq_def]
    simp only [usesOfList, declsOfList]
    have P1 := runNode_plain s n hp.1 hs hmg hl
    have P2 := runNodes_plain _ ns hp.2 P1.perr (plainStep_mglast P1 hmg)
      (plainStep_len P1 hl)
    exact plainStep_comp hl P1 P2
termination_by (sizeOf l, 2)

end


theorem vlast_concat (l : List (Finset String)) (x : Finset String) :
    vlast (l ++ [x]) = x := by
  simp [vlast]

theorem foldl_insert_init (params : List FormalParameter) (x : CoreString)
    (i : Finset CoreString) :
    params.foldl (fun acc p => insert p.name acc) (insert x i)
      = insert x (params.foldl (fun acc p => insert p.name acc) i) := by
  induction params generalizing i with
  | nil => rfl
  | cons p ps ih =>
    simp only [List.foldl_cons]
    have hcomm : insert p.name (insert x i) = insert x (insert p.name i) := by
      ext y
      simp
      tauto
    rw [hcomm, ih]

/-- **C4 (amended).** For a function whose body contains no nested
function declarations and no assignment expressions, the free-variable
annotation the analyzer writes is exactly the accumulated `cur_fv` the
analyzer carries INTO the declaration, united with the identifiers used
in the body that are not pre-existing globals, minus the function's own
name, its formal parameters and its `var`-declared locals.  The claim's
set is the special case of an empty incoming `cur_fv`: because the
analyzer only subtracts (and never clears) `cur_fv` between functions,
free variables of previously analyzed code leak into the annotation. -/
theorem fv_annotation_plain_body (s : FVState) (name : CoreString) (ut : Bool)
    (fv : Finset CoreString) (params : List FormalParameter) (body : List Node)
    (hp : plainNodeList body = true) (hs : s.err = false)
    (hl : 1 ≤ s.varmap.length) :
    fvAnnOf (runFnDecl s name ut fv params body).2
      = (s.cur_fv ∪ (usesOfList body \ v0 s.varmap))
          \ (insert name (pnamesOf params) ∪ declsOfList body) := by
  have hs2 : ¬ (s.err = true) := by simp [hs]
  rw [runFnDecl.eq_def, if_neg hs2]
  simp only [fvAnnOf]
  rw [runDecls_plain_state _ _ _ _ hp, runNonDecls_plain_state _ _ _ hp,
    hoistDecls_plain _ _ hp]
  set S2 : FVState := { s with
    varmap := s.varmap ++ [params.foldl (fun acc p => insert p.name acc) (insert name ∅)],
    mangled_function_name := s.mangled_function_name ++ [[]] } with hS2
  have hrv : S2.varmap
      = s.varmap ++ [params.foldl (fun acc p => insert p.name acc) (insert name ∅)] := rfl
  have hrm : S2.mangled_function_name = s.mangled_function_name ++ [[]] := rfl
  have hre : S2.err = false := hs
  have hcf : S2.cur_fv = s.cur_fv := rfl
  have hl2 : 2 ≤ S2.varmap.length := by
    rw [hrv]
    simp
    omega
  have P := runNodes_plain S2 body hp hre (by rw [hrm]; exact mglast_concat _ _) hl2
  have hvl2 : vlast S2.varmap = insert name (pnamesOf params) := by
    rw [hrv, vlast_concat, pnamesOf, foldl_insert_init]
  have hvfin : vlast (runNodes S2 body).1.varmap
      = insert name (pnamesOf params) ∪ declsOfList body := by
    rw [P.pvarmap, vlast_vsetLast, hvl2]
  have hv0 : v0 S2.varmap = v0 s.varmap := by
    rw [hrv]
    exact v0_concat _ hl _
  ext u
  simp only [Finset.mem_sdiff, Finset.mem_union]
  constructor
  · rintro ⟨hin, hnot⟩
    rw [hvfin] at hnot
    refine ⟨?_, fun hx => hnot (Finset.mem_union.mpr hx)⟩
    have hup := P.pupper hin
    rw [hcf, hv0] at hup
    rcases Finset.mem_union.mp hup with h | h
    · exact Or.inl h
    · exact Or.inr (Finset.mem_sdiff.mp h)
  · rintro ⟨hin, hnot⟩
    rw [hvfin]
    have hnot2 : u ∉ insert name (pnamesOf params) ∪ declsOfList body :=
      fun hx => hnot (Finset.mem_union.mp hx)
    refine ⟨?_, hnot2⟩
    rcases hin with h | ⟨hu, hg⟩
    · rw [← hcf] at h
      exact P.pmono h
    · rw [← hv0] at hg
      refine P.pcollect u hu hg ?_
      rw [hvfin]
      exact hnot2

theorem fv_annotation_plain_body_witness :
    fvAnnOf (runFnDecl FreeVariableFinder.new "f" false ∅ []
        [.Return (some (.Identifier "q"))]).2
      = (FreeVariableFinder.new.cur_fv ∪
          (usesOfList [.Return (some (.Identifier "q"))] \ v0 FreeVariableFinder.new.varmap))
          \ (insert "f" (pnamesOf []) ∪ declsOfList [.Return (some (.Identifier "q"))]) :=
  fv_annotation_plain_body FreeVariableFinder.new "f" false ∅ []
    [.Return (some (.Identifier "q"))]
    (by simp [plainNodeList, plainNode]) rfl (by simp [FreeVariableFinder.new])

/-- **C4 counterexample.** The program
`function f() { return q } function g() { return 1 }`: the body of `g`
uses no identifier at all, yet the analyzer annotates `g` with the
free-variable set containing the leftover `q` collected while analysing
`f`, because `cur_fv` is never cleared between functions. -/
theorem fv_leaks_into_next_function :
    ((run_toplevel FreeVariableFinder.new
        [.FunctionDecl "f" false ∅ [] [.Return (some (.Identifier "q"))],
         .FunctionDecl "g" false ∅ [] [.Return (some (.Number 1))]]).2.map fvAnnOf
      = [insert "q" ∅, insert "q" ∅])
    ∧ usesOfList [.Return (some (.Number 1))] = ∅ := by
  constructor
  · simp +decide [run_toplevel, toplevelPassA, toplevelPassB, runNode, runFnDecl,
      hoistDecls, runNonDecls, runDecls, runNodes, FreeVariableFinder.new, fvAnnOf,
      v0, vset0, vlast, vsetLast, mglast, mgsetLast, fcontains, mlookup]
  · simp [usesOfList, usesOf]


theorem xorshift_first_draw : XorShiftRng.new_unseeded.next_u32.1 = 3690029583 := by decide

/-- **C5 (amended).** In the two-name demo family (any outer name `f`,
any inner name `h`): the inner declaration, being at nesting depth 2, is
renamed to the single fresh mangled name `h.<first xorshift draw>`; the
reference to `h` in the enclosing body is rewritten to that mangled
name; but the recursive reference inside the renamed function's own body
is NOT rewritten — the mangling map is pushed per function and the inner
body only consults its own (empty) innermost map. -/
theorem nested_function_mangling (f h : CoreString) :
    (mangleDemo f h).map nameAnnOf = [some f]
    ∧ (bodyOf ((mangleDemo f h).headD .This)).map nameAnnOf
        = [some (h ++ "." ++ toString 3690029583), none]
    ∧ usesOfList (bodyOf ((bodyOf ((mangleDemo f h).headD .This)).headD .This))
        = insert h ∅
    ∧ usesOf ((bodyOf ((mangleDemo f h).headD .This)).getLastD .This)
        = insert (h ++ "." ++ toString 3690029583) ∅ := by
  refine ⟨?_, ?_, ?_, ?_⟩ <;>
    simp [mangleDemo, run_toplevel, toplevelPassA, toplevelPassB, runNode, runFnDecl,
      hoistDecls, runNonDecls, runDecls, runNodes, FreeVariableFinder.new,
      nameAnnOf, usesOf, usesOfList, bodyOf, v0, vset0, vlast, vsetLast,
      mglast, mgsetLast, fcontains, mlookup, minsert, apply_ite, xorshift_first_draw]

/-- **C5 counterexample.** The concrete program
`function f() { function h() { return h() } return h() }`: the inner
declaration is renamed to `h.3690029583` (second conjunct), yet the
recursive reference inside its own body still reads `h` (first
conjunct), so not every reference to the original name within the
enclosing body is rewritten to the mangled name. -/
theorem recursive_reference_not_mangled :
    (bodyOf ((bodyOf ((mangleDemo "f" "h").headD .This)).headD .This))
      = [.Return (some (.Call (.Identifier "h") []))]
    ∧ (bodyOf ((mangleDemo "f" "h").headD .This)).map nameAnnOf
      = [some "h.3690029583", none] := by
  constructor <;>
    simp +decide [mangleDemo, run_toplevel, toplevelPassA, toplevelPassB, runNode,
      runFnDecl, hoistDecls, runNonDecls, runDecls, runNodes, FreeVariableFinder.new,
      nameAnnOf, bodyOf, v0, vset0, vlast, vsetLast, mglast, mgsetLast, fcontains,
      mlookup, minsert, apply_ite]

end Rapidus
